import Mathlib

/-!
Verification of the resource-aware scheduling core and memory tracker of the
llama-swap model-serving supervisor.

The Go sources are embedded shallowly:

* `Scheduler.ScheduleProcess`, `selectEvictions`, `applyVramCaps`,
  `ensureHostRamCapacity` and their helpers are translated from
  `proxy/scheduler.go` (the revision with the candidate sort key
  evictions/assigned/free/index and the spill branch).
* `MemoryTracker.ObserveLog` and `parseMemoryFromLog` are translated from
  `proxy/memory_tracker.go`, including the semantics of the four regular
  expressions, implemented as explicit character scans.
* `Process` is modelled as a record of the values its accessors return; the
  accessors themselves (`process.go`) are not part of the provided sources, so
  the two non-trivial ones (`FitPolicy`, `processUsesSchedulerCapacity`) are
  modelled from the spec and marked as such.

Go `uint64` quantities (MB sizes) are modelled as `Nat`: no claim involves
overflow at 2^64.  Go `int` (GPU indices) is `Int`.  `time.Time` values are
modelled as `Int` timestamps ordered by `<` (`time.Before`).

`sort.Slice` is modelled by an insertion sort with the same comparator; the
Go sort is unstable, so any order consistent with the comparator is faithful.
-/

namespace LlamaSwap

/-! ### Insertion sort over a boolean comparator (model of Go `sort.Slice`) -/

def insertBy (less : α → α → Bool) (a : α) : List α → List α
  | [] => [a]
  | b :: l => if less a b then a :: b :: l else b :: insertBy less a l

def sortBy (less : α → α → Bool) : List α → List α
  | [] => []
  | b :: l => insertBy less b (sortBy less l)

theorem perm_insertBy (less : α → α → Bool) (a : α) (l : List α) :
    List.Perm (insertBy less a l) (a :: l) := by
  induction l with
  | nil => simp [insertBy]
  | cons b t ih =>
    simp only [insertBy]
    by_cases h : less a b
    · simp [h]
    · simp only [h, if_neg, Bool.false_eq_true, not_false_iff, ite_false]
      exact (List.Perm.cons b ih).trans (List.Perm.swap a b t)

theorem perm_sortBy (less : α → α → Bool) (l : List α) :
    List.Perm (sortBy less l) l := by
  induction l with
  | nil => simp [sortBy]
  | cons b t ih =>
    exact ((perm_insertBy less b (sortBy less t)).trans (List.Perm.cons b ih))

theorem mem_insertBy (less : α → α → Bool) (a x : α) (l : List α) :
    x ∈ insertBy less a l ↔ x = a ∨ x ∈ l := by
  constructor
  · intro hx
    have := (perm_insertBy less a l).mem_iff.mp hx
    simpa using this
  · intro hx
    refine (perm_insertBy less a l).mem_iff.mpr ?_
    simpa using hx

/-- After insertion sort with an asymmetric, transitive comparator, no later
element compares strictly below an earlier one. -/
theorem pairwise_insertBy (less : α → α → Bool)
    (htrans : ∀ x y z, less x y = true → less y z = true → less x z = true)
    (hasym : ∀ x y, less x y = true → less y x = false)
    (a : α) (l : List α)
    (hl : l.Pairwise (fun x y => less y x = false)) :
    (insertBy less a l).Pairwise (fun x y => less y x = false) := by
  induction l with
  | nil => simp [insertBy]
  | cons b t ih =>
    rcases List.pairwise_cons.mp hl with ⟨hb, ht⟩
    simp only [insertBy]
    by_cases h : less a b = true
    · simp only [h, ite_true]
      refine List.pairwise_cons.mpr ⟨?_, hl⟩
      intro z hz
      show less z a = false
      cases hle : less z a with
      | false => rfl
      | true =>
        exfalso
        rcases List.mem_cons.mp hz with hzb | hzt
        · subst hzb
          have hf := hasym a z h
          rw [hf] at hle
          exact absurd hle (by decide)
        · have h1 := htrans z a b hle h
          have h2 := hb z hzt
          rw [h2] at h1
          exact absurd h1 (by decide)
    · have h' : less a b = false := by
        cases hle : less a b
        · rfl
        · exact absurd hle h
      simp only [h', Bool.false_eq_true, ite_false]
      refine List.pairwise_cons.mpr ⟨?_, ih ht⟩
      intro z hz
      show less z b = false
      rcases (mem_insertBy less a z t).mp hz with hz | hz
      · subst hz; exact h'
      · exact hb z hz

theorem pairwise_sortBy (less : α → α → Bool)
    (htrans : ∀ x y z, less x y = true → less y z = true → less x z = true)
    (hasym : ∀ x y, less x y = true → less y x = false)
    (l : List α) :
    (sortBy less l).Pairwise (fun x y => less y x = false) := by
  induction l with
  | nil => simp [sortBy]
  | cons b t ih => exact pairwise_insertBy less htrans hasym b (sortBy less t) ih

/-! ### Process model

The scheduler only observes a `Process` through its accessors; a `Process` is
therefore a record of the values those accessors return at the time of the
scheduling decision.  `pid` models Go object identity (distinct `*Process`
pointers). -/

inductive ProcState where
  | stopped
  | starting
  | ready
  | stopping
  | shutdownState
deriving DecidableEq, Repr

structure Process where
  pid : Nat
  /-- The configured `fitPolicy` of the model (`config.FitPolicy`). -/
  fitPolicyConfig : String
  /-- `MeasuredVramMB()`: tracker value for the signature (0 = unknown). -/
  measuredVramMB : Nat
  /-- `MeasuredCpuMB()`: tracker value for the signature (0 = unknown). -/
  measuredCpuMB : Nat
  /-- `InFlightRequestsCount()`. -/
  inFlightRequestsCount : Nat
  /-- `LastRequestHandled()` as an integer timestamp; `time.Before` is `<`. -/
  lastRequestHandled : Int
  /-- `AssignedGPU()`; -1 means CPU-only / unassigned. -/
  assignedGPU : Int
  /-- `CurrentState()`. -/
  state : ProcState
  /-- The `GroupExclusive` field. -/
  groupExclusive : Bool
deriving DecidableEq, Repr

/-- `strings.ToLower` on the ASCII policy strings (spelled over `.data` so
that it reduces in the kernel). -/
def lowerString (s : String) : String := String.mk (s.data.map Char.toLower)

/-- Modelled from the spec: `Process.FitPolicy()` lives in `process.go`, which
is not among the provided sources.  Spec §4.3 step 2 sends both `evict_to_fit`
and `cpu_moe` to GPU placement, and §4.3.1's unknown-footprint guard makes a
`cpu_moe` candidate with measured VRAM 0 CPU-only; the scheduler itself only
dispatches on `evict_to_fit`/`spill`, so the accessor reports `evict_to_fit`
for a `cpu_moe` model once it has a VRAM footprint, and the configured policy
otherwise (consistent with `TestSchedulerScheduleProcess_CpuMoeWithVramHint`
and `TestSchedulerScheduleProcess_CpuMoeEviction`). -/
def Process.FitPolicy (p : Process) : String :=
  if lowerString p.fitPolicyConfig == "cpu_moe" && p.measuredVramMB != 0 then
    "evict_to_fit"
  else p.fitPolicyConfig

/-- Modelled from the spec: `processUsesSchedulerCapacity` lives in
`process.go`, which is not among the provided sources.  Spec §4.3.1: the
occupants of a GPU are the processes in `Ready` or `Starting` assigned to it
(§3: "`Starting` processes reserve their target GPU"); consistent with
`TestSchedulerScheduleProcess_StartingProcessOccupiesGPU`. -/
def processUsesSchedulerCapacity (p : Process) : Bool :=
  p.state == ProcState.ready || p.state == ProcState.starting

/-! ### Scheduler data types (`scheduler.go`) -/

structure GPUInfo where
  index : Int
  freeMB : Nat
  totalMB : Nat
deriving DecidableEq, Repr

structure SchedulerOptions where
  gpuVramCapMB : Nat
  gpuVramCapsMB : List Nat
  hostRamCapMB : Nat
deriving DecidableEq, Repr

/-- Result of `Scheduler.ScheduleProcess`.  `scheduled gpu evicted env` models
a `nil` return after calling `StopImmediately` on `evicted`, setting the
assigned GPU to `gpu` (when `some`) and the runtime environment to
`CUDA_VISIBLE_DEVICES=env` (when `some`); the error cases model the three
error returns (the allocator itself is modelled as pure, so its error return
does not arise). -/
inductive SchedResult where
  | scheduled (gpu : Option Int) (evicted : List Process) (env : Option String)
  | errInsufficientVRAM
  | errInsufficientHostRAM
  | errNoGPUs
deriving DecidableEq, Repr

/-! ### Scheduler helpers (`scheduler.go`) -/

def processesOnGPU (processes : List Process) (gpuIndex : Int) : List Process :=
  processes.filter (fun p => p.assignedGPU == gpuIndex && processUsesSchedulerCapacity p)

def hasExclusiveProcess (processes : List Process) : Bool :=
  processes.any (fun p => p.groupExclusive)

def idleProcesses (processes : List Process) : List Process :=
  processes.filter (fun p => p.inFlightRequestsCount == 0)

def evictAllIdle : List Process → Option (List Process)
  | [] => some []
  | p :: rest =>
    if p.inFlightRequestsCount != 0 then none
    else (evictAllIdle rest).map (fun e => p :: e)

def sumVram (processes : List Process) : Nat :=
  (processes.map (fun p => p.measuredVramMB)).sum

def hasUnknownFootprint (processes : List Process) : Bool :=
  processes.any (fun p => p.measuredVramMB == 0)

def vramCapForGPU (s : SchedulerOptions) (index : Int) : Nat :=
  if 0 ≤ index then
    let c := s.gpuVramCapsMB.getD index.toNat 0
    if 0 < c then c else s.gpuVramCapMB
  else s.gpuVramCapMB

/-- Loop body of `applyVramCaps`. -/
def capGPU (s : SchedulerOptions) (gpu : GPUInfo) : GPUInfo :=
  let capMB := vramCapForGPU s gpu.index
  if 0 < capMB then
    let total := if capMB < gpu.totalMB then capMB else gpu.totalMB
    let free0 := if capMB < gpu.freeMB then capMB else gpu.freeMB
    let free := if total < free0 then total else free0
    ⟨gpu.index, free, total⟩
  else gpu

def applyVramCaps (s : SchedulerOptions) (gpus : List GPUInfo) : List GPUInfo :=
  if s.gpuVramCapMB == 0 && s.gpuVramCapsMB.isEmpty then gpus
  else gpus.map (capGPU s)

/-- `strings.EqualFold(p.FitPolicy(), "spill")` (ASCII case folding). -/
def shouldAccountHostRam (p : Process) : Bool :=
  !(lowerString p.FitPolicy == "spill")

def sumCpuMB : List Process → Option Nat
  | [] => some 0
  | p :: rest =>
    if !shouldAccountHostRam p then sumCpuMB rest
    else if p.measuredCpuMB == 0 then none
    else (sumCpuMB rest).map (fun total => p.measuredCpuMB + total)

/-- `true` exactly when `ensureHostRamCapacity` returns
`ErrInsufficientHostRAM`; all other paths (cap unset, spill candidate, missing
candidate or running footprint) return `nil`, possibly with a warning. -/
def ensureHostRamCapacity (s : SchedulerOptions) (running : List Process)
    (p : Process) : Bool :=
  if s.hostRamCapMB == 0 || !shouldAccountHostRam p then false
  else if p.measuredCpuMB == 0 then false
  else
    match sumCpuMB running with
    | none => false
    | some total => decide (s.hostRamCapMB < total + p.measuredCpuMB)

/-- The comparator of the `sort.Slice` over evictable processes:
`LastRequestHandled().Before(...)`. -/
def lastRequestBefore (a b : Process) : Bool :=
  decide (a.lastRequestHandled < b.lastRequestHandled)

/-- The greedy loop at the end of `selectEvictions`: accumulate evictees in
order until the freed memory reaches the requirement; `none` when even the
whole list does not suffice. -/
def greedyEvict (free requiredMB : Nat) : List Process → Option (List Process)
  | [] => none
  | c :: rest =>
    if requiredMB ≤ free + c.measuredVramMB then some [c]
    else (greedyEvict (free + c.measuredVramMB) requiredMB rest).map (fun e => c :: e)

/-- `Scheduler.selectEvictions`.  `some evict` models `(evict, true)`,
`none` models `(nil, false)`. -/
def selectEvictions (process : Process) (assigned : List Process)
    (freeMB requiredMB : Nat) : Option (List Process) :=
  if hasUnknownFootprint assigned then none
  else if process.groupExclusive then
    match evictAllIdle assigned with
    | none => none
    | some evict =>
      if freeMB + sumVram evict < requiredMB then none else some evict
  else if hasExclusiveProcess assigned then
    match evictAllIdle assigned with
    | none => none
    | some evict =>
      if freeMB + sumVram evict < requiredMB then none else some evict
  else if requiredMB ≤ freeMB then some []
  else
    greedyEvict freeMB requiredMB (sortBy lastRequestBefore (idleProcesses assigned))

structure SchedCandidate where
  gpuIndex : Int
  evict : List Process
  freeMB : Nat
  assigned : Nat
deriving DecidableEq, Repr

/-- The candidate comparator of `ScheduleProcess`'s `sort.Slice`:
fewest evictions, then fewest assigned processes, then most free MB, then
lowest GPU index. -/
def candLess (a b : SchedCandidate) : Bool :=
  if a.evict.length ≠ b.evict.length then decide (a.evict.length < b.evict.length)
  else if a.assigned ≠ b.assigned then decide (a.assigned < b.assigned)
  else if a.freeMB ≠ b.freeMB then decide (b.freeMB < a.freeMB)
  else decide (a.gpuIndex < b.gpuIndex)

/-- The candidate-building loop of `ScheduleProcess`. -/
def buildCandidates (process : Process) (running : List Process)
    (requiredMB : Nat) : List GPUInfo → List SchedCandidate
  | [] => []
  | gpu :: rest =>
    let assigned := processesOnGPU running gpu.index
    match selectEvictions process assigned gpu.freeMB requiredMB with
    | none => buildCandidates process running requiredMB rest
    | some evict =>
      ⟨gpu.index, evict, gpu.freeMB, assigned.length⟩ ::
        buildCandidates process running requiredMB rest

/-- The max-free-MB selection loop used when the VRAM footprint is missing. -/
def pickMaxFree (g : GPUInfo) (rest : List GPUInfo) : GPUInfo :=
  rest.foldl (fun chosen gpu => if chosen.freeMB < gpu.freeMB then gpu else chosen) g

def cudaVisibleEnv (i : Int) : String :=
  "CUDA_VISIBLE_DEVICES=" ++ toString i

def cudaVisibleAll (gpus : List GPUInfo) : String :=
  "CUDA_VISIBLE_DEVICES=" ++ String.intercalate "," (gpus.map (fun g => toString g.index))

/-- `Scheduler.ScheduleProcess`.  The allocator is modelled as pure: `gpusRaw`
is the list `allocator.GetGPUs()` returns, `running` the `provider()` list. -/
def scheduleProcess (s : SchedulerOptions) (gpusRaw : List GPUInfo)
    (running : List Process) (process : Process) : SchedResult :=
  if ensureHostRamCapacity s running process then .errInsufficientHostRAM
  else
    let fitPolicy := lowerString process.FitPolicy
    if fitPolicy == "spill" then
      match applyVramCaps s gpusRaw with
      | [] => .errNoGPUs
      | g0 :: grest => .scheduled none [] (some (cudaVisibleAll (g0 :: grest)))
    else if fitPolicy != "evict_to_fit" then .scheduled none [] none
    else
      let requiredMB := process.measuredVramMB
      match applyVramCaps s gpusRaw with
      | [] => .errNoGPUs
      | g0 :: grest =>
        if requiredMB == 0 then
          let chosen := pickMaxFree g0 grest
          .scheduled (some chosen.index) [] (some (cudaVisibleEnv chosen.index))
        else
          match buildCandidates process running requiredMB (g0 :: grest) with
          | [] => .errInsufficientVRAM
          | c :: cs =>
            let chosen := (sortBy candLess (c :: cs)).headD c
            .scheduled (some chosen.gpuIndex) chosen.evict
              (some (cudaVisibleEnv chosen.gpuIndex))

/-! ### Memory tracker (`memory_tracker.go`)

The parser uses four Go regular expressions; they are embedded as explicit
character scans with RE2 semantics: `\b` is an ASCII word boundary, `(?i)` is
ASCII case folding, `\s` is `[\t\n\f\r ]`, `[^\n]*?` is a lazy gap that cannot
cross a newline, alternations are tried left to right and the whole search is
leftmost-first.  Numeric captures are handed to `parseSizeToMB` exactly as in
the source; `strconv.ParseFloat` is modelled by exact rational parsing of the
decimal forms (hex floats and inf/nan cannot occur in the captured strings),
and the final `uint64` conversions truncate, i.e. take rational floors. -/

def isWordByte (c : Char) : Bool :=
  c.isAlphanum || c == '_'

/-- RE2 `\s`. -/
def isRegexSpace (c : Char) : Bool :=
  c == ' ' || c == '\t' || c == '\n' || c == '\x0c' || c == '\r'

/-- ASCII part of `unicode.IsSpace` (`strings.TrimSpace`, `strings.Fields`). -/
def isTrimSpace (c : Char) : Bool :=
  c == ' ' || c == '\t' || c == '\n' || c == '\x0b' || c == '\x0c' || c == '\r'

def trimSpace (cs : List Char) : List Char :=
  (((cs.dropWhile isTrimSpace).reverse).dropWhile isTrimSpace).reverse

/-- ASCII case-insensitive comparison of a single character. -/
def lcEq (a b : Char) : Bool := a.toLower == b.toLower

/-- Match a literal token case-insensitively; returns the remainder. -/
def matchTokenCI : List Char → List Char → Option (List Char)
  | [], cs => some cs
  | _ :: _, [] => none
  | t :: ts, c :: cs => if lcEq t c then matchTokenCI ts cs else none

/-- Match a literal token case-insensitively; returns the captured original
characters together with the remainder. -/
def matchTokenCap : List Char → List Char → Option (List Char × List Char)
  | [], cs => some ([], cs)
  | _ :: _, [] => none
  | t :: ts, c :: cs =>
    if lcEq t c then (matchTokenCap ts cs).map (fun p => (c :: p.1, p.2)) else none

/-- Try the token alternatives (all alphabetic) in order at this position,
requiring the right-hand word boundary. -/
def matchAnyToken : List (List Char) → List Char → Option (List Char)
  | [], _ => none
  | t :: ts, cs =>
    match matchTokenCI t cs with
    | some rest =>
      match rest with
      | [] => some rest
      | c :: _ => if isWordByte c then matchAnyToken ts cs else some rest
    | none => matchAnyToken ts cs

/-- `\b(tok₁|tok₂|…)\b` at the current position, given the previous character
(`none` at the start of the string). -/
def tokenHere (toks : List (List Char)) (prev : Option Char) (cs : List Char) :
    Option (List Char) :=
  match prev with
  | some c => if isWordByte c then none else matchAnyToken toks cs
  | none => matchAnyToken toks cs

/-- `(mi?b|gi?b)` case-insensitively; returns the captured unit characters. -/
def matchUnit (cs : List Char) : Option (List Char) :=
  match matchTokenCap ['m', 'i', 'b'] cs with
  | some p => some p.1
  | none =>
    match matchTokenCap ['m', 'b'] cs with
    | some p => some p.1
    | none =>
      match matchTokenCap ['g', 'i', 'b'] cs with
      | some p => some p.1
      | none =>
        match matchTokenCap ['g', 'b'] cs with
        | some p => some p.1
        | none => none

/-- `([0-9]+(?:\.[0-9]+)?)\s*(mi?b|gi?b)` anchored at the current position;
returns the two captures (number, unit).  The optional fraction is greedy, so
it is tried first and dropped on failure, like a backtracking engine. -/
def numUnitMatchAt (cs : List Char) : Option (List Char × List Char) :=
  let p := cs.span Char.isDigit
  if p.1.isEmpty then none
  else
    let withFrac : Option (List Char × List Char) :=
      match p.2 with
      | '.' :: r2 =>
        let q := r2.span Char.isDigit
        if q.1.isEmpty then none
        else
          match matchUnit (q.2.dropWhile isRegexSpace) with
          | some u => some (p.1 ++ '.' :: q.1, u)
          | none => none
      | _ => none
    match withFrac with
    | some cap => some cap
    | none =>
      match matchUnit (p.2.dropWhile isRegexSpace) with
      | some u => some (p.1, u)
      | none => none

/-- The lazy gap `[^\n]*?` followed by number and unit: the earliest match
position wins and the gap cannot cross a newline. -/
def seekNumUnit : List Char → Option (List Char × List Char)
  | [] => none
  | c :: rest =>
    match numUnitMatchAt (c :: rest) with
    | some cap => some cap
    | none => if c == '\n' then none else seekNumUnit rest

/-- Leftmost-first search for the llama-style regex
`(?i)\b(toks)\b[^\n]*?([0-9]+(?:\.[0-9]+)?)\s*(mi?b|gi?b)`. -/
def scanLlama (toks : List (List Char)) (prev : Option Char) :
    List Char → Option (List Char × List Char)
  | [] => none
  | c :: rest =>
    match tokenHere toks prev (c :: rest) with
    | some after =>
      match seekNumUnit after with
      | some cap => some cap
      | none => scanLlama toks (some c) rest
    | none => scanLlama toks (some c) rest

/-- The tail `\s+(used|memory)\s*[:=]\s*([0-9.]+)\s*(mi?b|gi?b)` of the
labeled plain-text regexes, anchored right after the token; returns the
number and unit captures. -/
def plainTail (after : List Char) : Option (List Char × List Char) :=
  let sp := after.span isRegexSpace
  if sp.1.isEmpty then none
  else
    let lbl :=
      match matchTokenCI ['u', 's', 'e', 'd'] sp.2 with
      | some r => some r
      | none => matchTokenCI ['m', 'e', 'm', 'o', 'r', 'y'] sp.2
    match lbl with
    | none => none
    | some r2 =>
      match r2.dropWhile isRegexSpace with
      | [] => none
      | c :: r4 =>
        if c == ':' || c == '=' then
          let num := (r4.dropWhile isRegexSpace).span (fun ch => ch.isDigit || ch == '.')
          if num.1.isEmpty then none
          else
            match matchUnit (num.2.dropWhile isRegexSpace) with
            | some u => some (num.1, u)
            | none => none
        else none


/-- Leftmost-first search for the labeled plain-text regex
`(?i)\b(toks)\b\s+(used|memory)\s*[:=]\s*([0-9.]+)\s*(mi?b|gi?b)`. -/
def scanPlain (toks : List (List Char)) (prev : Option Char) :
    List Char → Option (List Char × List Char)
  | [] => none
  | c :: rest =>
    match tokenHere toks prev (c :: rest) with
    | some after =>
      match plainTail after with
      | some cap => some cap
      | none => scanPlain toks (some c) rest
    | none => scanPlain toks (some c) rest

def digitsToNat (ds : List Char) : Nat :=
  ds.foldl (fun n c => n * 10 + (c.toNat - '0'.toNat)) 0

/-- `strconv.ParseFloat` on the decimal forms
`[+-]?(digits[.digits?]|.digits)[(e|E)[+-]?digits]`, as an exact rational
`numerator / denominator` (hex floats, `inf` and `nan` cannot occur at the
call sites). -/
def parseGoFloat (cs : List Char) : Option (Int × Nat) :=
  let signed : Bool × List Char :=
    match cs with
    | '-' :: r => (true, r)
    | '+' :: r => (false, r)
    | _ => (false, cs)
  let ds := signed.2.span Char.isDigit
  let mant : Option (Nat × Nat × Nat × List Char) :=
    if ds.1.isEmpty then
      match ds.2 with
      | '.' :: r =>
        let fs := r.span Char.isDigit
        if fs.1.isEmpty then none
        else some (0, digitsToNat fs.1, fs.1.length, fs.2)
      | _ => none
    else
      match ds.2 with
      | '.' :: r =>
        let fs := r.span Char.isDigit
        some (digitsToNat ds.1, digitsToNat fs.1, fs.1.length, fs.2)
      | _ => some (digitsToNat ds.1, 0, 0, ds.2)
  match mant with
  | none => none
  | some (i, f, k, rest) =>
    let expo : Option (Int × List Char) :=
      match rest with
      | [] => some (0, [])
      | e :: r =>
        if e == 'e' || e == 'E' then
          let esigned : Bool × List Char :=
            match r with
            | '-' :: r2 => (true, r2)
            | '+' :: r2 => (false, r2)
            | _ => (false, r)
          let eds := esigned.2.span Char.isDigit
          if eds.1.isEmpty then none
          else
            let ev : Int := Int.ofNat (digitsToNat eds.1)
            some (if esigned.1 then -ev else ev, eds.2)
        else none
    match expo with
    | none => none
    | some (e, rest2) =>
      if rest2.isEmpty then
        let base : Nat := i * 10 ^ k + f
        let n : Int :=
          if 0 ≤ e then Int.ofNat (base * 10 ^ e.toNat) else Int.ofNat base
        let d : Nat := if 0 ≤ e then 10 ^ k else 10 ^ k * 10 ^ (-e).toNat
        some (if signed.1 then -n else n, d)
      else none

/-- `parseSizeToMB(value, unit)`: reject non-positive values, convert MiB/MB
as-is and GiB/GB times 1024, truncating to an integer MB count. -/
def parseSizeToMB (value unit : List Char) : Option Nat :=
  match parseGoFloat value with
  | none => none
  | some (n, d) =>
    if n ≤ 0 then none
    else
      let u := (trimSpace unit).map Char.toLower
      if u == ['m', 'b'] || u == ['m', 'i', 'b'] then some (n.toNat / d)
      else if u == ['g', 'b'] || u == ['g', 'i', 'b'] then some (n.toNat * 1024 / d)
      else none

/-! JSON branch.  `json.Unmarshal` into `map[string]any` is modelled by a
small JSON reader: numbers become exact rationals (`float64` values at the
magnitudes involved are exact enough for the integer-MB floors), strings stay
strings, and booleans, nulls, arrays and nested objects — which
`parseAnyToMB` rejects anyway — become `other`.  A malformed document makes
the whole branch fall through, like an `Unmarshal` error. -/

inductive JsonVal where
  | num (n : Int) (d : Nat)
  | str (s : List Char)
  | other
deriving DecidableEq, Repr

def jsonWs (c : Char) : Bool :=
  c == ' ' || c == '\t' || c == '\n' || c == '\r'

/-- Body of a JSON string after the opening quote; escape sequences keep the
escaped character (full unescaping is irrelevant to the tracked keys). -/
def parseJsonString : List Char → Option (List Char × List Char)
  | [] => none
  | '"' :: rest => some ([], rest)
  | '\\' :: c :: rest => (parseJsonString rest).map (fun p => (c :: p.1, p.2))
  | c :: rest => (parseJsonString rest).map (fun p => (c :: p.1, p.2))

/-- A JSON number as an exact rational. -/
def parseJsonNum (cs : List Char) : Option ((Int × Nat) × List Char) :=
  let signed : Bool × List Char :=
    match cs with
    | '-' :: r => (true, r)
    | _ => (false, cs)
  let ds := signed.2.span Char.isDigit
  if ds.1.isEmpty then none
  else
    let frac : Nat × Nat × List Char :=
      match ds.2 with
      | '.' :: r =>
        let fs := r.span Char.isDigit
        (digitsToNat fs.1, fs.1.length, fs.2)
      | _ => (0, 0, ds.2)
    let withExp : Option (Int × List Char) :=
      match frac.2.2 with
      | e :: r =>
        if e == 'e' || e == 'E' then
          let esigned : Bool × List Char :=
            match r with
            | '-' :: r2 => (true, r2)
            | '+' :: r2 => (false, r2)
            | _ => (false, r)
          let eds := esigned.2.span Char.isDigit
          if eds.1.isEmpty then none
          else
            let ev : Int := Int.ofNat (digitsToNat eds.1)
            some (if esigned.1 then -ev else ev, eds.2)
        else some (0, e :: r)
      | [] => some (0, [])
    match withExp with
    | none => none
    | some (e, rest2) =>
      let k := frac.2.1
      let base : Nat := digitsToNat ds.1 * 10 ^ k + frac.1
      let n : Int :=
        if 0 ≤ e then Int.ofNat (base * 10 ^ e.toNat) else Int.ofNat base
      let d : Nat := if 0 ≤ e then 10 ^ k else 10 ^ k * 10 ^ (-e).toNat
      some ((if signed.1 then -n else n, d), rest2)

mutual

def parseJsonValue : Nat → List Char → Option (JsonVal × List Char)
  | 0, _ => none
  | _ + 1, [] => none
  | fuel + 1, c :: cs =>
    if c == '"' then (parseJsonString cs).map (fun p => (.str p.1, p.2))
    else if c == '\x7b' then
      (parseJsonObject fuel (c :: cs)).map (fun p => (JsonVal.other, p.2))
    else if c == '[' then
      (parseJsonArray fuel (cs.dropWhile jsonWs)).map (fun r => (JsonVal.other, r))
    else if c == 't' then
      (matchTokenCI ['t', 'r', 'u', 'e'] (c :: cs)).map (fun r => (JsonVal.other, r))
    else if c == 'f' then
      (matchTokenCI ['f', 'a', 'l', 's', 'e'] (c :: cs)).map (fun r => (JsonVal.other, r))
    else if c == 'n' then
      (matchTokenCI ['n', 'u', 'l', 'l'] (c :: cs)).map (fun r => (JsonVal.other, r))
    else if c.isDigit || c == '-' then
      (parseJsonNum (c :: cs)).map (fun p => (.num p.1.1 p.1.2, p.2))
    else none

def parseJsonMembers : Nat → List Char → Option (List (List Char × JsonVal) × List Char)
  | 0, _ => none
  | _ + 1, [] => none
  | fuel + 1, c :: cs =>
    if c == '"' then
      match parseJsonString cs with
      | none => none
      | some (key, r1) =>
        match r1.dropWhile jsonWs with
        | ':' :: r3 =>
          match parseJsonValue fuel (r3.dropWhile jsonWs) with
          | none => none
          | some (v, r4) =>
            match r4.dropWhile jsonWs with
            | ',' :: r6 =>
              (parseJsonMembers fuel (r6.dropWhile jsonWs)).map
                (fun p => ((key, v) :: p.1, p.2))
            | '\x7d' :: r6 => some ([(key, v)], r6)
            | _ => none
        | _ => none
    else none

def parseJsonObject : Nat → List Char → Option (List (List Char × JsonVal) × List Char)
  | 0, _ => none
  | _ + 1, [] => none
  | fuel + 1, c :: cs =>
    if c == '\x7b' then
      match cs.dropWhile jsonWs with
      | '\x7d' :: r2 => some ([], r2)
      | r1 => parseJsonMembers fuel r1
    else none

def parseJsonArray : Nat → List Char → Option (List Char)
  | 0, _ => none
  | _ + 1, [] => none
  | fuel + 1, c :: cs =>
    if c == ']' then some cs
    else
      match parseJsonValue fuel (c :: cs) with
      | none => none
      | some (_, r1) =>
        match r1.dropWhile jsonWs with
        | ',' :: r2 => parseJsonArray fuel (r2.dropWhile jsonWs)
        | ']' :: r2 => some r2
        | _ => none

end

/-- `json.Unmarshal` into `map[string]any`: the whole line must be one JSON
object (later duplicate keys win, as in a Go map). -/
def unmarshalMap (cs : List Char) : Option (List (List Char × JsonVal)) :=
  match parseJsonObject (cs.length + 8) (cs.dropWhile jsonWs) with
  | some (bs, rest) => if (rest.dropWhile jsonWs).isEmpty then some bs else none
  | none => none

def lookupJson (bs : List (List Char × JsonVal)) (key : List Char) : Option JsonVal :=
  ((bs.filter (fun b => b.1 == key)).getLast?).map (fun b => b.2)

/-- `strings.Fields`: split on whitespace runs. -/
def fieldsAux : List Char → List Char → List (List Char)
  | [], acc => if acc.isEmpty then [] else [acc.reverse]
  | c :: rest, acc =>
    if isTrimSpace c then
      if acc.isEmpty then fieldsAux rest [] else acc.reverse :: fieldsAux rest []
    else fieldsAux rest (c :: acc)

def fieldsOf (cs : List Char) : List (List Char) := fieldsAux cs []

def parseSizeStringToMB (s : List Char) : Option Nat :=
  let t := trimSpace s
  if t.isEmpty then none
  else
    match fieldsOf t with
    | [p] => match parseGoFloat p with
      | none => none
      | some (n, d) => if n ≤ 0 then none else some (n.toNat / d)
    | p1 :: p2 :: _ => parseSizeToMB p1 p2
    | [] => none

def parseAnyToMB : JsonVal → Option Nat
  | .num n d => if n ≤ 0 then none else some (n.toNat / d)
  | .str s => parseSizeStringToMB s
  | .other => none

def findMB (bs : List (List Char × JsonVal)) : List (List Char) → Nat
  | [] => 0
  | k :: ks =>
    match lookupJson bs k with
    | some v =>
      match parseAnyToMB v with
      | some parsed => parsed
      | none => findMB bs ks
    | none => findMB bs ks

structure MemoryFootprint where
  vramMB : Nat
  cpuMB : Nat
  recordedAt : Int
deriving DecidableEq, Repr

def vramJsonKeys : List (List Char) :=
  ["vram_used_mb".data, "gpu_used_mb".data, "vram_mb".data, "gpu_mb".data]

def cpuJsonKeys : List (List Char) :=
  ["cpu_used_mb".data, "ram_used_mb".data, "cpu_mb".data, "ram_mb".data]

def plainVramToks : List (List Char) := ["vram".data, "gpu".data]
def plainCpuToks : List (List Char) := ["cpu".data, "ram".data]
def llamaVramToks : List (List Char) := ["cuda".data, "vram".data, "gpu".data]
def llamaCpuToks : List (List Char) := ["cpu".data, "host".data, "ram".data]

/-- `parseMemoryFromLog`. -/
def parseMemoryFromLog (line : String) : Option MemoryFootprint :=
  let cs := trimSpace line.data
  if cs.isEmpty then none
  else
    let jsonResult : Option MemoryFootprint :=
      if cs.head? == some '\x7b' && cs.getLast? == some '\x7d' then
        match unmarshalMap cs with
        | some payload =>
          let vram := findMB payload vramJsonKeys
          let cpu := findMB payload cpuJsonKeys
          if 0 < vram || 0 < cpu then some ⟨vram, cpu, 0⟩ else none
        | none => none
      else none
    match jsonResult with
    | some fp => some fp
    | none =>
      let plainResult : Option MemoryFootprint :=
        match scanPlain plainVramToks none cs with
        | some cap =>
          match parseSizeToMB cap.1 cap.2 with
          | some vram =>
            let cpu : Nat :=
              match scanPlain plainCpuToks none cs with
              | some cap2 => (parseSizeToMB cap2.1 cap2.2).getD 0
              | none => 0
            some ⟨vram, cpu, 0⟩
          | none => none
        | none => none
      match plainResult with
      | some fp => some fp
      | none =>
        let vram : Nat :=
          match scanLlama llamaVramToks none cs with
          | some cap => (parseSizeToMB cap.1 cap.2).getD 0
          | none => 0
        let cpu : Nat :=
          match scanLlama llamaCpuToks none cs with
          | some cap => (parseSizeToMB cap.1 cap.2).getD 0
          | none => 0
        if 0 < vram || 0 < cpu then some ⟨vram, cpu, 0⟩ else none

/-! ### The tracker state and `ObserveLog` -/

def MemoryTracker := String → Option MemoryFootprint

def emptyTracker : MemoryTracker := fun _ => none

def trackerSet (t : MemoryTracker) (sig : String) (fp : MemoryFootprint) :
    MemoryTracker :=
  fun s => if s == sig then some fp else t s

structure ObserveResult where
  tracker : MemoryTracker
  footprint : MemoryFootprint
  matched : Bool

/-- The store-time merge of `ObserveLog` viewed as a binary operation on
`(vramMB, cpuMB)` pairs: a zero field of the new footprint inherits the prior
value. -/
def mergeMB (fresh prior : Nat × Nat) : Nat × Nat :=
  (if fresh.1 == 0 then prior.1 else fresh.1,
   if fresh.2 == 0 then prior.2 else fresh.2)

/-- `MemoryTracker.ObserveLog`; `now` models `time.Now()`. -/
def observeLog (t : MemoryTracker) (sig line : String) (now : Int) :
    ObserveResult :=
  match parseMemoryFromLog line with
  | none => ⟨t, ⟨0, 0, 0⟩, false⟩
  | some fp =>
    let fp1 : MemoryFootprint :=
      match t sig with
      | some existing =>
        { vramMB := if fp.vramMB == 0 then existing.vramMB else fp.vramMB
          cpuMB := if fp.cpuMB == 0 then existing.cpuMB else fp.cpuMB
          recordedAt := fp.recordedAt }
      | none => fp
    let fp2 := { fp1 with recordedAt := now }
    ⟨trackerSet t sig fp2, fp2, true⟩

/-! ### Post-state of a scheduling decision

`ScheduleProcess` mutates shared state on the success path: it calls
`StopImmediately` on every selected evictee (driving it to `Stopped`) and
assigns the candidate its GPU; the candidate itself is at the
`Stopped → Starting` boundary of `start()` (the scheduler runs as its
pre-start hook), so immediately after an OK return it is `Starting`. -/

def stopEvicted (evicted : List Process) (processes : List Process) : List Process :=
  processes.map (fun q =>
    if evicted.any (fun e => e.pid == q.pid) then { q with state := ProcState.stopped }
    else q)

def residentVramMB (processes : List Process) (gpuIndex : Int) : Nat :=
  sumVram (processesOnGPU processes gpuIndex)

def candidateAfter (p : Process) (g : Option Int) : Process :=
  { p with
    state := ProcState.starting
    assignedGPU := match g with | some i => i | none => p.assignedGPU }

/-- Modelled from the spec: the eviction-selection algorithm exactly as
§4.3.1 words it (unknown-footprint guard; empty plan when the free memory
already suffices; otherwise a greedy LRU prefix of the idle occupants).  The
spec's algorithm has no `GroupExclusive` branch; this definition exists to
compare the code's `selectEvictions` against it. -/
def specSelectEvictions (assigned : List Process) (freeMB requiredMB : Nat) :
    Option (List Process) :=
  if hasUnknownFootprint assigned then none
  else if requiredMB ≤ freeMB then some []
  else greedyEvict freeMB requiredMB (sortBy lastRequestBefore (idleProcesses assigned))

/-! ### Helper lemmas: comparators -/

theorem candLess_trans (a b c : SchedCandidate)
    (hab : candLess a b = true) (hbc : candLess b c = true) :
    candLess a c = true := by
  simp only [candLess] at *
  split_ifs at * <;> simp_all <;> omega

theorem candLess_asymm (a b : SchedCandidate) (hab : candLess a b = true) :
    candLess b a = false := by
  simp only [candLess] at *
  split_ifs at * <;> simp_all <;> omega

theorem lastRequestBefore_trans (a b c : Process)
    (hab : lastRequestBefore a b = true) (hbc : lastRequestBefore b c = true) :
    lastRequestBefore a c = true := by
  simp only [lastRequestBefore, decide_eq_true_eq] at *
  omega

theorem lastRequestBefore_asymm (a b : Process)
    (hab : lastRequestBefore a b = true) : lastRequestBefore b a = false := by
  simp only [lastRequestBefore, decide_eq_true_eq] at hab
  simp only [lastRequestBefore, decide_eq_false_iff_not]
  omega

theorem candLess_total_of_index_ne (a b : SchedCandidate)
    (h : a.gpuIndex ≠ b.gpuIndex) : candLess a b = true ∨ candLess b a = true := by
  simp only [candLess]
  split_ifs <;> simp_all

/-! ### Helper lemmas: head of the sorted list is minimal -/

theorem sortBy_ne_nil (less : α → α → Bool) (c : α) (cs : List α) :
    sortBy less (c :: cs) ≠ [] := by
  intro h
  have := perm_sortBy less (c :: cs)
  rw [h] at this
  exact absurd this.symm (List.cons_ne_nil c cs ∘ List.Perm.eq_nil)

theorem sortBy_headD_mem (less : α → α → Bool) (c : α) (cs : List α) :
    (sortBy less (c :: cs)).headD c ∈ c :: cs := by
  have hperm := perm_sortBy less (c :: cs)
  cases hS : sortBy less (c :: cs) with
  | nil => exact absurd hS (sortBy_ne_nil less c cs)
  | cons h t =>
    rw [hS] at hperm
    simp only [List.headD_cons]
    exact hperm.mem_iff.mp (List.mem_cons_self h t)

theorem sortBy_headD_min (less : α → α → Bool)
    (htrans : ∀ x y z, less x y = true → less y z = true → less x z = true)
    (hasym : ∀ x y, less x y = true → less y x = false)
    (c : α) (cs : List α) :
    ∀ x ∈ c :: cs, less x ((sortBy less (c :: cs)).headD c) = false := by
  intro x hx
  have hperm := perm_sortBy less (c :: cs)
  have hpw := pairwise_sortBy less htrans hasym (c :: cs)
  cases hS : sortBy less (c :: cs) with
  | nil => exact absurd hS (sortBy_ne_nil less c cs)
  | cons h t =>
    rw [hS] at hperm hpw
    simp only [List.headD_cons]
    have hx' : x ∈ h :: t := hperm.mem_iff.mpr hx
    rcases List.mem_cons.mp hx' with hxh | hxt
    · subst hxh
      cases hle : less x x with
      | false => rfl
      | true =>
        have := hasym x x hle
        rw [this] at hle
        exact absurd hle (by decide)
    · exact (List.pairwise_cons.mp hpw).1 x hxt

/-! ### Helper lemmas: sums -/

theorem sumVram_append (l₁ l₂ : List Process) :
    sumVram (l₁ ++ l₂) = sumVram l₁ + sumVram l₂ := by
  simp [sumVram]

theorem sumVram_perm {l₁ l₂ : List Process} (h : List.Perm l₁ l₂) :
    sumVram l₁ = sumVram l₂ := by
  simpa [sumVram] using (h.map (fun p => p.measuredVramMB)).sum_eq

theorem sumVram_filter_le (f : Process → Bool) (l : List Process) :
    sumVram (l.filter f) ≤ sumVram l := by
  induction l with
  | nil => simp [sumVram]
  | cons a t ih =>
    by_cases hf : f a = true <;> simp [sumVram, List.filter_cons, hf] at * <;> omega

/-! ### Helper lemmas: `evictAllIdle` and `greedyEvict` -/

theorem evictAllIdle_eq {l e : List Process} (h : evictAllIdle l = some e) :
    e = l ∧ ∀ q ∈ l, q.inFlightRequestsCount = 0 := by
  induction l generalizing e with
  | nil => simp [evictAllIdle] at h; simp [h]
  | cons p rest ih =>
    simp only [evictAllIdle] at h
    by_cases hp : p.inFlightRequestsCount = 0
    · simp only [hp, bne_self_eq_false, Bool.false_eq_true, if_false] at h
      cases hrec : evictAllIdle rest with
      | none => rw [hrec] at h; simp at h
      | some e' =>
        rw [hrec] at h
        simp only [Option.map_some'] at h
        rcases ih hrec with ⟨he, hq⟩
        subst he
        constructor
        · simpa using h.symm
        · intro q hq'
          rcases List.mem_cons.mp hq' with hq' | hq'
          · subst hq'; exact hp
          · exact hq q hq'
    · have : (p.inFlightRequestsCount != 0) = true := by
        simpa using hp
      rw [this] at h
      simp at h

theorem evictAllIdle_none {l : List Process}
    (h : ∃ q ∈ l, q.inFlightRequestsCount ≠ 0) : evictAllIdle l = none := by
  induction l with
  | nil => simp at h
  | cons p rest ih =>
    rcases h with ⟨q, hq, hne⟩
    simp only [evictAllIdle]
    by_cases hp : p.inFlightRequestsCount = 0
    · rcases List.mem_cons.mp hq with hq' | hq'
      · subst hq'; exact absurd hp hne
      · simp only [hp, bne_self_eq_false, Bool.false_eq_true, if_false]
        rw [ih ⟨q, hq', hne⟩]
        rfl
    · have : (p.inFlightRequestsCount != 0) = true := by simpa using hp
      rw [this]
      simp

theorem greedyEvict_sum {free req : Nat} {l ev : List Process}
    (h : greedyEvict free req l = some ev) : req ≤ free + sumVram ev := by
  induction l generalizing free ev with
  | nil => simp [greedyEvict] at h
  | cons c rest ih =>
    simp only [greedyEvict] at h
    by_cases hc : req ≤ free + c.measuredVramMB
    · rw [if_pos hc] at h
      simp only [Option.some.injEq] at h
      subst h
      simpa [sumVram] using hc
    · rw [if_neg hc] at h
      cases hrec : greedyEvict (free + c.measuredVramMB) req rest with
      | none => rw [hrec] at h; simp at h
      | some ev' =>
        rw [hrec] at h
        simp only [Option.map_some', Option.some.injEq] at h
        subst h
        have := ih hrec
        simp only [sumVram, List.map_cons, List.sum_cons] at *
        omega

theorem greedyEvict_take {free req : Nat} {l ev : List Process}
    (h : greedyEvict free req l = some ev) : ev = l.take ev.length := by
  induction l generalizing free ev with
  | nil => simp [greedyEvict] at h
  | cons c rest ih =>
    simp only [greedyEvict] at h
    by_cases hc : req ≤ free + c.measuredVramMB
    · rw [if_pos hc] at h
      simp only [Option.some.injEq] at h
      subst h
      simp
    · rw [if_neg hc] at h
      cases hrec : greedyEvict (free + c.measuredVramMB) req rest with
      | none => rw [hrec] at h; simp at h
      | some ev' =>
        rw [hrec] at h
        simp only [Option.map_some', Option.some.injEq] at h
        subst h
        simpa [List.take_cons] using ih hrec

theorem greedyEvict_min {free req : Nat} {l ev : List Process}
    (h : greedyEvict free req l = some ev) (hfree : free < req) :
    ∀ m < ev.length, free + sumVram (l.take m) < req := by
  induction l generalizing free ev with
  | nil => simp [greedyEvict] at h
  | cons c rest ih =>
    simp only [greedyEvict] at h
    by_cases hc : req ≤ free + c.measuredVramMB
    · rw [if_pos hc] at h
      simp only [Option.some.injEq] at h
      subst h
      intro m hm
      have hm0 : m = 0 := by simpa using hm
      subst hm0
      simpa [sumVram] using hfree
    · rw [if_neg hc] at h
      cases hrec : greedyEvict (free + c.measuredVramMB) req rest with
      | none => rw [hrec] at h; simp at h
      | some ev' =>
        rw [hrec] at h
        simp only [Option.map_some', Option.some.injEq] at h
        subst h
        intro m hm
        cases m with
        | zero => simpa [sumVram] using hfree
        | succ k =>
          have hk := ih hrec (by omega) k (by simpa using hm)
          simp only [List.take_succ_cons, sumVram, List.map_cons, List.sum_cons] at *
          omega

theorem greedyEvict_none_iff (free req : Nat) (l : List Process)
    (hfree : free < req) :
    greedyEvict free req l = none ↔ free + sumVram l < req := by
  induction l generalizing free with
  | nil =>
    simp only [greedyEvict, sumVram, List.map_nil, List.sum_nil, Nat.add_zero]
    exact ⟨fun _ => hfree, fun _ => trivial⟩
  | cons c rest ih =>
    simp only [greedyEvict, sumVram, List.map_cons, List.sum_cons]
    by_cases hc : req ≤ free + c.measuredVramMB
    · rw [if_pos hc]
      constructor
      · intro h; exact absurd h (by simp)
      · intro h; omega
    · rw [if_neg hc]
      have hfree2 : free + c.measuredVramMB < req := by omega
      constructor
      · intro h
        have hnone : greedyEvict (free + c.measuredVramMB) req rest = none := by
          cases hrec : greedyEvict (free + c.measuredVramMB) req rest with
          | none => rfl
          | some ev2 => rw [hrec] at h; exact absurd h (by simp)
        have := (ih (free + c.measuredVramMB) hfree2).mp hnone
        simp only [sumVram] at this
        omega
      · intro h
        have hnone := (ih (free + c.measuredVramMB) hfree2).mpr
          (by simp only [sumVram]; omega)
        rw [hnone]
        rfl

theorem greedyEvict_append {free req : Nat} {l ev : List Process}
    (h : greedyEvict free req l = some ev) : ev ++ l.drop ev.length = l := by
  have := greedyEvict_take h
  conv_rhs => rw [← List.take_append_drop ev.length l]
  rw [← this]

/-! ### Helper lemmas: `selectEvictions` on success -/

theorem idleProcesses_inFlight {l : List Process} {q : Process}
    (h : q ∈ idleProcesses l) : q.inFlightRequestsCount = 0 := by
  simp only [idleProcesses, List.mem_filter, beq_iff_eq] at h
  exact h.2

/-- Case analysis of a successful `selectEvictions`: either one of the two
exclusivity branches returned the whole (idle) occupant list, or the free
memory already sufficed, or the greedy LRU loop produced the plan. -/
theorem selectEvictions_some_cases {p : Process} {assigned ev : List Process}
    {freeMB requiredMB : Nat}
    (h : selectEvictions p assigned freeMB requiredMB = some ev) :
    hasUnknownFootprint assigned = false ∧
      ((ev = assigned ∧ (∀ q ∈ assigned, q.inFlightRequestsCount = 0) ∧
          requiredMB ≤ freeMB + sumVram ev) ∨
        (ev = [] ∧ requiredMB ≤ freeMB) ∨
        (freeMB < requiredMB ∧
          greedyEvict freeMB requiredMB
            (sortBy lastRequestBefore (idleProcesses assigned)) = some ev)) := by
  unfold selectEvictions at h
  by_cases hu : hasUnknownFootprint assigned = true
  · rw [if_pos hu] at h
    exact absurd h (by simp)
  · have hu2 : hasUnknownFootprint assigned = false := by simpa using hu
    rw [if_neg hu] at h
    refine ⟨hu2, ?_⟩
    by_cases hpx : p.groupExclusive = true
    · rw [if_pos hpx] at h
      cases hall : evictAllIdle assigned with
      | none =>
        rw [hall] at h
        exact absurd h (by simp)
      | some e =>
        rw [hall] at h
        simp only at h
        by_cases hlt : freeMB + sumVram e < requiredMB
        · rw [if_pos hlt] at h
          exact absurd h (by simp)
        · rw [if_neg hlt] at h
          have he : e = ev := by simpa using h
          subst he
          rcases evictAllIdle_eq hall with ⟨heq, hq⟩
          exact Or.inl ⟨heq, hq, by omega⟩
    · rw [if_neg hpx] at h
      by_cases hex : hasExclusiveProcess assigned = true
      · rw [if_pos hex] at h
        cases hall : evictAllIdle assigned with
        | none =>
          rw [hall] at h
          exact absurd h (by simp)
        | some e =>
          rw [hall] at h
          simp only at h
          by_cases hlt : freeMB + sumVram e < requiredMB
          · rw [if_pos hlt] at h
            exact absurd h (by simp)
          · rw [if_neg hlt] at h
            have he : e = ev := by simpa using h
            subst he
            rcases evictAllIdle_eq hall with ⟨heq, hq⟩
            exact Or.inl ⟨heq, hq, by omega⟩
      · rw [if_neg hex] at h
        by_cases hge : requiredMB ≤ freeMB
        · rw [if_pos hge] at h
          have he : ([] : List Process) = ev := by simpa using h
          exact Or.inr (Or.inl ⟨he.symm, hge⟩)
        · rw [if_neg hge] at h
          exact Or.inr (Or.inr ⟨by omega, h⟩)

theorem selectEvictions_sum {p : Process} {assigned ev : List Process}
    {freeMB requiredMB : Nat}
    (h : selectEvictions p assigned freeMB requiredMB = some ev) :
    requiredMB ≤ freeMB + sumVram ev := by
  rcases selectEvictions_some_cases h with ⟨-, hc | hc | hc⟩
  · exact hc.2.2
  · rcases hc with ⟨he, hge⟩
    subst he
    simp only [sumVram, List.map_nil, List.sum_nil, Nat.add_zero]
    exact hge
  · exact greedyEvict_sum hc.2

theorem selectEvictions_idle {p : Process} {assigned ev : List Process}
    {freeMB requiredMB : Nat}
    (h : selectEvictions p assigned freeMB requiredMB = some ev) :
    ∀ q ∈ ev, q.inFlightRequestsCount = 0 := by
  rcases selectEvictions_some_cases h with ⟨-, hc | hc | hc⟩
  · intro q hq
    exact hc.2.1 q (hc.1 ▸ hq)
  · intro q hq
    rw [hc.1] at hq
    simp at hq
  · intro q hq
    have htake := greedyEvict_take hc.2
    have hsub : ev.Sublist (sortBy lastRequestBefore (idleProcesses assigned)) := by
      rw [htake]
      exact List.take_sublist _ _
    have hmem : q ∈ sortBy lastRequestBefore (idleProcesses assigned) := hsub.mem hq
    exact idleProcesses_inFlight
      ((perm_sortBy lastRequestBefore (idleProcesses assigned)).mem_iff.mp hmem)

theorem selectEvictions_perm {p : Process} {assigned ev : List Process}
    {freeMB requiredMB : Nat}
    (h : selectEvictions p assigned freeMB requiredMB = some ev) :
    ∃ rest, List.Perm (ev ++ rest) assigned := by
  rcases selectEvictions_some_cases h with ⟨-, hc | hc | hc⟩
  · exact ⟨[], by simp [hc.1]⟩
  · exact ⟨assigned, by simp [hc.1]⟩
  · have happ := greedyEvict_append hc.2
    refine ⟨(sortBy lastRequestBefore (idleProcesses assigned)).drop ev.length ++
      assigned.filter (fun q => !(q.inFlightRequestsCount == 0)), ?_⟩
    have hassoc : ev ++ ((sortBy lastRequestBefore (idleProcesses assigned)).drop ev.length ++
        assigned.filter (fun q => !(q.inFlightRequestsCount == 0))) =
        (ev ++ (sortBy lastRequestBefore (idleProcesses assigned)).drop ev.length) ++
        assigned.filter (fun q => !(q.inFlightRequestsCount == 0)) := by
      rw [List.append_assoc]
    rw [hassoc, happ]
    refine List.Perm.trans
      ((perm_sortBy lastRequestBefore (idleProcesses assigned)).append_right _) ?_
    simpa [idleProcesses] using List.filter_append_perm
      (fun q => q.inFlightRequestsCount == 0) assigned

/-! ### Helper lemmas: resident VRAM and the post-state -/

theorem processesOnGPU_append (l₁ l₂ : List Process) (g : Int) :
    processesOnGPU (l₁ ++ l₂) g = processesOnGPU l₁ g ++ processesOnGPU l₂ g := by
  simp [processesOnGPU]

theorem residentVram_append (l₁ l₂ : List Process) (g : Int) :
    residentVramMB (l₁ ++ l₂) g = residentVramMB l₁ g + residentVramMB l₂ g := by
  simp [residentVramMB, processesOnGPU_append, sumVram_append]

theorem residentVram_stopEvicted (ev running : List Process) (g : Int) :
    residentVramMB (stopEvicted ev running) g =
      sumVram ((processesOnGPU running g).filter
        (fun q => !(ev.any (fun e => e.pid == q.pid)))) := by
  induction running with
  | nil => simp [stopEvicted, residentVramMB, processesOnGPU, sumVram]
  | cons q t ih =>
    simp only [stopEvicted, List.map_cons] at *
    by_cases hm : (ev.any (fun e => e.pid == q.pid)) = true
    · simp only [hm, if_true]
      have hq : processUsesSchedulerCapacity { q with state := ProcState.stopped } = false := by
        simp [processUsesSchedulerCapacity]
      simp only [residentVramMB, processesOnGPU, List.filter_cons] at *
      simp only [hq, Bool.and_false, Bool.false_eq_true, if_false]
      by_cases hres : (q.assignedGPU == g && processUsesSchedulerCapacity q) = true
      · simp only [hres, if_true, List.filter_cons, hm, Bool.not_true,
          Bool.false_eq_true, if_false]
        exact ih
      · simp only [hres, Bool.false_eq_true, if_false]
        exact ih
    · have hm' : (ev.any (fun e => e.pid == q.pid)) = false := by
        simpa using hm
      simp only [hm', Bool.false_eq_true, if_false]
      simp only [residentVramMB, processesOnGPU, List.filter_cons] at *
      by_cases hres : (q.assignedGPU == g && processUsesSchedulerCapacity q) = true
      · simp only [hres, if_true, List.filter_cons, hm', Bool.not_false, if_true,
          sumVram, List.map_cons, List.sum_cons]
        simp only [sumVram] at ih
        omega
      · simp only [hres, Bool.false_eq_true, if_false]
        exact ih

/-! ### Helper lemmas: candidate construction and choice -/

theorem mem_buildCandidates {p : Process} {running : List Process} {req : Nat}
    {gpus : List GPUInfo} {c : SchedCandidate}
    (h : c ∈ buildCandidates p running req gpus) :
    ∃ gi ∈ gpus, c.gpuIndex = gi.index ∧ c.freeMB = gi.freeMB ∧
      c.assigned = (processesOnGPU running gi.index).length ∧
      selectEvictions p (processesOnGPU running gi.index) gi.freeMB req =
        some c.evict := by
  induction gpus with
  | nil => simp [buildCandidates] at h
  | cons gpu rest ih =>
    simp only [buildCandidates] at h
    cases hsel : selectEvictions p (processesOnGPU running gpu.index) gpu.freeMB req with
    | none =>
      rw [hsel] at h
      rcases ih h with ⟨gi, hgi, hrest⟩
      exact ⟨gi, List.mem_cons_of_mem gpu hgi, hrest⟩
    | some e =>
      rw [hsel] at h
      simp only at h
      rcases List.mem_cons.mp h with hc | hc
      · subst hc
        exact ⟨gpu, List.mem_cons_self gpu rest, rfl, rfl, rfl, hsel⟩
      · rcases ih hc with ⟨gi, hgi, hrest⟩
        exact ⟨gi, List.mem_cons_of_mem gpu hgi, hrest⟩

theorem buildCandidates_mem_of {p : Process} {running : List Process} {req : Nat}
    {gpus : List GPUInfo} {gi : GPUInfo} {e : List Process}
    (hgi : gi ∈ gpus)
    (hsel : selectEvictions p (processesOnGPU running gi.index) gi.freeMB req = some e) :
    (⟨gi.index, e, gi.freeMB, (processesOnGPU running gi.index).length⟩ : SchedCandidate) ∈
      buildCandidates p running req gpus := by
  induction gpus with
  | nil => simp at hgi
  | cons gpu rest ih =>
    simp only [buildCandidates]
    rcases List.mem_cons.mp hgi with hg | hg
    · subst hg
      rw [hsel]
      exact List.mem_cons_self _ _
    · cases hsel2 : selectEvictions p (processesOnGPU running gpu.index) gpu.freeMB req with
      | none => exact ih hg
      | some e2 =>
        simp only
        exact List.mem_cons_of_mem _ (ih hg)

theorem buildCandidates_index_sublist (p : Process) (running : List Process)
    (req : Nat) (gpus : List GPUInfo) :
    ((buildCandidates p running req gpus).map SchedCandidate.gpuIndex).Sublist
      (gpus.map GPUInfo.index) := by
  induction gpus with
  | nil => simp [buildCandidates]
  | cons gpu rest ih =>
    simp only [buildCandidates, List.map_cons]
    cases hsel : selectEvictions p (processesOnGPU running gpu.index) gpu.freeMB req with
    | none => exact ih.cons _
    | some e =>
      simp only [List.map_cons]
      exact ih.cons₂ _

/-! ### Helper lemmas: `applyVramCaps` -/

theorem capGPU_of_no_caps {s : SchedulerOptions} (h1 : s.gpuVramCapMB = 0)
    (h2 : s.gpuVramCapsMB = []) (gpu : GPUInfo) : capGPU s gpu = gpu := by
  simp only [capGPU, vramCapForGPU, h1, h2]
  simp [List.getD]

theorem applyVramCaps_eq_map (s : SchedulerOptions) (gpus : List GPUInfo) :
    applyVramCaps s gpus = gpus.map (capGPU s) := by
  unfold applyVramCaps
  by_cases h : (s.gpuVramCapMB == 0 && s.gpuVramCapsMB.isEmpty) = true
  · rw [if_pos h]
    simp only [Bool.and_eq_true, beq_iff_eq, List.isEmpty_iff] at h
    have hfun : capGPU s = fun gpu => gpu := funext (capGPU_of_no_caps h.1 h.2)
    rw [hfun]
    simp
  · rw [if_neg h]

theorem capGPU_index (s : SchedulerOptions) (gpu : GPUInfo) :
    (capGPU s gpu).index = gpu.index := by
  simp only [capGPU]
  split <;> rfl

theorem capGPU_free_eq {s : SchedulerOptions} {gpu : GPUInfo}
    (h : gpu.freeMB ≤ (capGPU s gpu).totalMB) :
    (capGPU s gpu).freeMB = gpu.freeMB := by
  simp only [capGPU] at *
  split_ifs at * <;> simp_all <;> omega

/-! ### Helper lemmas: case analysis of `scheduleProcess` -/

theorem scheduleProcess_evict_case {s : SchedulerOptions} {gpusRaw : List GPUInfo}
    {running : List Process} {p : Process} {g : Option Int} {ev : List Process}
    {env : Option String}
    (h : scheduleProcess s gpusRaw running p = .scheduled g ev env)
    (hpol : lowerString p.FitPolicy = "evict_to_fit")
    (hvram : p.measuredVramMB ≠ 0) :
    ∃ c ∈ buildCandidates p running p.measuredVramMB (applyVramCaps s gpusRaw),
      g = some c.gpuIndex ∧ ev = c.evict ∧ env = some (cudaVisibleEnv c.gpuIndex) ∧
      ∀ x ∈ buildCandidates p running p.measuredVramMB (applyVramCaps s gpusRaw),
        candLess x c = false := by
  simp only [scheduleProcess] at h
  by_cases hh : ensureHostRamCapacity s running p = true
  · rw [if_pos hh] at h
    exact absurd h (by simp)
  · rw [if_neg hh] at h
    rw [if_neg (show ¬((lowerString p.FitPolicy == "spill") = true) by
      rw [hpol]; decide)] at h
    rw [if_neg (show ¬((lowerString p.FitPolicy != "evict_to_fit") = true) by
      rw [hpol]; decide)] at h
    cases hcap : applyVramCaps s gpusRaw with
    | nil =>
      rw [hcap] at h
      exact absurd h (by simp)
    | cons g0 grest =>
      rw [hcap] at h
      simp only at h
      have hreq : ¬((p.measuredVramMB == 0) = true) := by simpa using hvram
      rw [if_neg hreq] at h
      cases hbc : buildCandidates p running p.measuredVramMB (g0 :: grest) with
      | nil =>
        rw [hbc] at h
        exact absurd h (by simp)
      | cons c cs =>
        rw [hbc] at h
        simp only [SchedResult.scheduled.injEq] at h
        have hmem : (sortBy candLess (c :: cs)).headD c ∈ c :: cs :=
          sortBy_headD_mem candLess c cs
        have hmin : ∀ x ∈ c :: cs, candLess x ((sortBy candLess (c :: cs)).headD c) = false :=
          sortBy_headD_min candLess candLess_trans candLess_asymm c cs
        exact ⟨(sortBy candLess (c :: cs)).headD c, hmem, h.1.symm, h.2.1.symm,
          h.2.2.symm, hmin⟩

theorem scheduleProcess_scheduled_cases {s : SchedulerOptions}
    {gpusRaw : List GPUInfo} {running : List Process} {p : Process}
    {g : Option Int} {ev : List Process} {env : Option String}
    (h : scheduleProcess s gpusRaw running p = .scheduled g ev env) :
    (g = none ∧ ev = []) ∨
      (p.measuredVramMB = 0 ∧ ev = [] ∧ ∃ i, g = some i) ∨
      (∃ gi ∈ applyVramCaps s gpusRaw, g = some gi.index ∧
        selectEvictions p (processesOnGPU running gi.index) gi.freeMB
          p.measuredVramMB = some ev) := by
  simp only [scheduleProcess] at h
  by_cases hh : ensureHostRamCapacity s running p = true
  · rw [if_pos hh] at h
    exact absurd h (by simp)
  · rw [if_neg hh] at h
    by_cases hsp : (lowerString p.FitPolicy == "spill") = true
    · rw [if_pos hsp] at h
      cases hcap : applyVramCaps s gpusRaw with
      | nil =>
        rw [hcap] at h
        exact absurd h (by simp)
      | cons g0 grest =>
        rw [hcap] at h
        simp only [SchedResult.scheduled.injEq] at h
        exact Or.inl ⟨h.1.symm, h.2.1.symm⟩
    · rw [if_neg hsp] at h
      by_cases hne : (lowerString p.FitPolicy != "evict_to_fit") = true
      · rw [if_pos hne] at h
        simp only [SchedResult.scheduled.injEq] at h
        exact Or.inl ⟨h.1.symm, h.2.1.symm⟩
      · rw [if_neg hne] at h
        cases hcap : applyVramCaps s gpusRaw with
        | nil =>
          rw [hcap] at h
          exact absurd h (by simp)
        | cons g0 grest =>
          rw [hcap] at h
          simp only at h
          by_cases hreq : (p.measuredVramMB == 0) = true
          · rw [if_pos hreq] at h
            simp only [SchedResult.scheduled.injEq] at h
            exact Or.inr (Or.inl ⟨by simpa using hreq, h.2.1.symm,
              (pickMaxFree g0 grest).index, h.1.symm⟩)
          · rw [if_neg hreq] at h
            cases hbc : buildCandidates p running p.measuredVramMB (g0 :: grest) with
            | nil =>
              rw [hbc] at h
              exact absurd h (by simp)
            | cons c cs =>
              rw [hbc] at h
              simp only [SchedResult.scheduled.injEq] at h
              have hmem : (sortBy candLess (c :: cs)).headD c ∈
                  buildCandidates p running p.measuredVramMB (g0 :: grest) := by
                rw [hbc]
                exact sortBy_headD_mem candLess c cs
              rcases mem_buildCandidates hmem with ⟨gi, hgi, hidx, _, _, hsel⟩
              refine Or.inr (Or.inr ⟨gi, hgi, ?_, ?_⟩)
              · rw [← h.1, hidx]
              · rw [hsel, h.2.1]

theorem scheduleProcess_ne_hostram {s : SchedulerOptions} {gpusRaw : List GPUInfo}
    {running : List Process} {p : Process}
    (hh : ensureHostRamCapacity s running p = false) :
    scheduleProcess s gpusRaw running p ≠ .errInsufficientHostRAM := by
  simp only [scheduleProcess, hh, Bool.false_eq_true, if_false]
  by_cases hsp : (lowerString p.FitPolicy == "spill") = true
  · rw [if_pos hsp]
    cases applyVramCaps s gpusRaw <;> simp
  · rw [if_neg hsp]
    by_cases hne : (lowerString p.FitPolicy != "evict_to_fit") = true
    · rw [if_pos hne]
      simp
    · rw [if_neg hne]
      cases applyVramCaps s gpusRaw with
      | nil => simp
      | cons g0 grest =>
        simp only
        by_cases hreq : (p.measuredVramMB == 0) = true
        · rw [if_pos hreq]
          simp
        · rw [if_neg hreq]
          cases buildCandidates p running p.measuredVramMB (g0 :: grest) <;> simp

/-! ### Helper lemmas: the scheduler observes a candidate only through
`FitPolicy`, the measured footprints and `GroupExclusive` -/

theorem selectEvictions_congr {p p' : Process}
    (hx : p.groupExclusive = p'.groupExclusive)
    (assigned : List Process) (freeMB requiredMB : Nat) :
    selectEvictions p assigned freeMB requiredMB =
      selectEvictions p' assigned freeMB requiredMB := by
  simp only [selectEvictions, hx]

theorem buildCandidates_congr {p p' : Process}
    (hx : p.groupExclusive = p'.groupExclusive)
    (running : List Process) (req : Nat) (gpus : List GPUInfo) :
    buildCandidates p running req gpus = buildCandidates p' running req gpus := by
  induction gpus with
  | nil => rfl
  | cons gpu rest ih =>
    simp only [buildCandidates, selectEvictions_congr hx, ih]

theorem ensureHostRamCapacity_congr {p p' : Process}
    (hfp : p.FitPolicy = p'.FitPolicy) (hcpu : p.measuredCpuMB = p'.measuredCpuMB)
    (s : SchedulerOptions) (running : List Process) :
    ensureHostRamCapacity s running p = ensureHostRamCapacity s running p' := by
  simp only [ensureHostRamCapacity, shouldAccountHostRam, hfp, hcpu]

theorem scheduleProcess_congr {p p' : Process}
    (hfp : p.FitPolicy = p'.FitPolicy)
    (hvram : p.measuredVramMB = p'.measuredVramMB)
    (hcpu : p.measuredCpuMB = p'.measuredCpuMB)
    (hx : p.groupExclusive = p'.groupExclusive)
    (s : SchedulerOptions) (gpusRaw : List GPUInfo) (running : List Process) :
    scheduleProcess s gpusRaw running p = scheduleProcess s gpusRaw running p' := by
  simp only [scheduleProcess, ensureHostRamCapacity_congr hfp hcpu s running,
    hfp, hvram, buildCandidates_congr hx]

/-! ### Further small helpers used by the claim theorems -/

theorem stopEvicted_nil (l : List Process) : stopEvicted [] l = l := by
  simp [stopEvicted]

theorem hasExclusiveProcess_eq_false {l : List Process}
    (h : ∀ q ∈ l, q.groupExclusive = false) : hasExclusiveProcess l = false := by
  simp only [hasExclusiveProcess, List.any_eq_false]
  intro q hq
  simp [h q hq]

theorem hasUnknownFootprint_eq_false {l : List Process}
    (h : ∀ q ∈ l, q.measuredVramMB ≠ 0) : hasUnknownFootprint l = false := by
  simp only [hasUnknownFootprint, List.any_eq_false]
  intro q hq
  simp [h q hq]

/-- The two exclusivity branches of `selectEvictions` collapse to the same
evict-all-idle computation. -/
theorem selectEvictions_exclusive {p : Process} {assigned : List Process}
    {freeMB requiredMB : Nat}
    (hex : p.groupExclusive = true ∨ hasExclusiveProcess assigned = true) :
    selectEvictions p assigned freeMB requiredMB =
      if hasUnknownFootprint assigned then none
      else
        match evictAllIdle assigned with
        | none => none
        | some evict =>
          if freeMB + sumVram evict < requiredMB then none else some evict := by
  unfold selectEvictions
  by_cases hu : hasUnknownFootprint assigned = true
  · rw [if_pos hu, if_pos hu]
  · rw [if_neg hu, if_neg hu]
    rcases hex with hpx | hax
    · rw [if_pos hpx]
    · by_cases hpx : p.groupExclusive = true
      · rw [if_pos hpx]
      · rw [if_neg hpx, if_pos hax]

/-- Outside the exclusivity branches `selectEvictions` is the plain
free-check-then-greedy-LRU computation. -/
theorem selectEvictions_nonexclusive {p : Process} {assigned : List Process}
    {freeMB requiredMB : Nat}
    (hpx : p.groupExclusive = false)
    (hax : hasExclusiveProcess assigned = false)
    (hknown : hasUnknownFootprint assigned = false) :
    selectEvictions p assigned freeMB requiredMB =
      if requiredMB ≤ freeMB then some []
      else greedyEvict freeMB requiredMB
        (sortBy lastRequestBefore (idleProcesses assigned)) := by
  unfold selectEvictions
  rw [if_neg (by simp [hknown]), if_neg (by simp [hpx]), if_neg (by simp [hax])]

/-! ## Claim C9: `applyVramCaps`

The claim's `freeMB' = min(freeMB, cap)` is wrong: the loop additionally
clamps the capped free to the capped total (`if gpu.FreeMB > gpu.TotalMB`),
which differs exactly when `freeMB > totalMB` and `totalMB < cap` — a case the
claim explicitly includes.  `TestSchedulerApplyVramCaps` pins the code's
behavior (GPU 1: free 900, total 700, global cap 800 ⇒ free' = 700, not
`min 900 800 = 800`). -/

/-- C9 (counterexample): with the global fallback cap 800 and a GPU reporting
free 900 > total 700, the code yields free' = 700 while the claim's
`min(freeMB, cap)` is 800. -/
theorem c9_counterexample :
    vramCapForGPU ⟨800, [600], 0⟩ 1 = 800 ∧
    applyVramCaps ⟨800, [600], 0⟩ [⟨1, 900, 700⟩] =
      [(⟨1, 700, 700⟩ : GPUInfo)] ∧
    (700 : Nat) ≠ min 900 800 := by
  refine ⟨by decide, by decide, by decide⟩

/-- C9 (amended): `applyVramCaps` maps each GPU with an applicable positive
cap (per-index entry when positive, else the global fallback) to
`totalMB' = min(totalMB, cap)` and `freeMB' = min(min(freeMB, cap), totalMB')`,
and leaves GPUs without an applicable cap unchanged. -/
theorem c9_applyVramCaps_spec (s : SchedulerOptions) (gpus : List GPUInfo) :
    applyVramCaps s gpus = gpus.map (capGPU s) ∧
    ∀ gi ∈ gpus,
      (0 < vramCapForGPU s gi.index →
        capGPU s gi = ⟨gi.index,
          min (min gi.freeMB (vramCapForGPU s gi.index))
            (min gi.totalMB (vramCapForGPU s gi.index)),
          min gi.totalMB (vramCapForGPU s gi.index)⟩) ∧
      (vramCapForGPU s gi.index = 0 → capGPU s gi = gi) := by
  refine ⟨applyVramCaps_eq_map s gpus, ?_⟩
  intro gi _
  constructor
  · intro hpos
    simp only [capGPU, if_pos hpos, GPUInfo.mk.injEq]
    refine ⟨trivial, ?_, ?_⟩ <;> (simp only [Nat.min_def]; split_ifs <;> omega)
  · intro h0
    simp [capGPU, h0]

/-- C9 witness: a per-index cap (600 at index 0) applied to a GPU whose
reported free exceeds its total. -/
theorem c9_witness :
    applyVramCaps ⟨800, [600], 0⟩ [⟨0, 900, 1000⟩] =
      [⟨0, 900, 1000⟩].map (capGPU ⟨800, [600], 0⟩) ∧
    0 < vramCapForGPU ⟨800, [600], 0⟩ 0 ∧
    capGPU ⟨800, [600], 0⟩ ⟨0, 900, 1000⟩ =
      ⟨0, min (min 900 600) (min 1000 600), min 1000 600⟩ :=
  ⟨(c9_applyVramCaps_spec ⟨800, [600], 0⟩ [⟨0, 900, 1000⟩]).1,
   by decide,
   ((c9_applyVramCaps_spec ⟨800, [600], 0⟩ [⟨0, 900, 1000⟩]).2
      ⟨0, 900, 1000⟩ (by decide)).1 (by decide)⟩

/-! ## Claim C10: the exclusivity branch of `selectEvictions` -/

/-- C10: whenever the candidate or an occupant is `GroupExclusive`, a
successful plan is always the whole occupant list and requires every occupant
idle; one busy occupant makes the GPU unfit even when the free memory already
meets the requirement (concrete instance: free 200 ≥ required 50, yet unfit);
and the spec's eviction-selection algorithm (`specSelectEvictions`, which has
no such branch) disagrees with the code at that instance. -/
theorem c10_exclusive_branch (p : Process) (assigned : List Process)
    (freeMB requiredMB : Nat)
    (hex : p.groupExclusive = true ∨ hasExclusiveProcess assigned = true)
    (hknown : hasUnknownFootprint assigned = false) :
    (∀ ev, selectEvictions p assigned freeMB requiredMB = some ev →
      ev = assigned ∧ ∀ q ∈ assigned, q.inFlightRequestsCount = 0) ∧
    ((∃ q ∈ assigned, q.inFlightRequestsCount ≠ 0) →
      selectEvictions p assigned freeMB requiredMB = none) ∧
    (selectEvictions ⟨0, "evict_to_fit", 50, 0, 0, 0, -1, ProcState.stopped, true⟩
        [⟨1, "evict_to_fit", 100, 0, 1, 0, 0, ProcState.ready, false⟩] 200 50 = none ∧
      specSelectEvictions
        [⟨1, "evict_to_fit", 100, 0, 1, 0, 0, ProcState.ready, false⟩] 200 50 =
        some [] ∧
      (50 : Nat) ≤ 200) := by
  refine ⟨?_, ?_, by decide, by decide, by decide⟩
  · intro ev h
    rw [selectEvictions_exclusive hex, if_neg (by simp [hknown])] at h
    cases hall : evictAllIdle assigned with
    | none =>
      rw [hall] at h
      exact absurd h (by simp)
    | some e =>
      rw [hall] at h
      simp only at h
      by_cases hlt : freeMB + sumVram e < requiredMB
      · rw [if_pos hlt] at h
        exact absurd h (by simp)
      · rw [if_neg hlt] at h
        have he : e = ev := by simpa using h
        subst he
        exact evictAllIdle_eq hall
  · intro hbusy
    rw [selectEvictions_exclusive hex, if_neg (by simp [hknown]),
      evictAllIdle_none hbusy]

/-- C10 witness: a group-exclusive candidate over two idle known occupants
evicts both, including the one not needed for space. -/
theorem c10_witness :
    ((⟨0, "evict_to_fit", 150, 0, 0, 0, -1, ProcState.stopped, true⟩ : Process).groupExclusive = true ∨
      hasExclusiveProcess
        [⟨1, "evict_to_fit", 100, 0, 0, 0, 0, ProcState.ready, false⟩,
         ⟨2, "evict_to_fit", 30, 0, 0, 0, 0, ProcState.ready, false⟩] = true) ∧
    hasUnknownFootprint
      [⟨1, "evict_to_fit", 100, 0, 0, 0, 0, ProcState.ready, false⟩,
       ⟨2, "evict_to_fit", 30, 0, 0, 0, 0, ProcState.ready, false⟩] = false ∧
    selectEvictions ⟨0, "evict_to_fit", 150, 0, 0, 0, -1, ProcState.stopped, true⟩
      [⟨1, "evict_to_fit", 100, 0, 0, 0, 0, ProcState.ready, false⟩,
       ⟨2, "evict_to_fit", 30, 0, 0, 0, 0, ProcState.ready, false⟩] 75 150 =
      some [⟨1, "evict_to_fit", 100, 0, 0, 0, 0, ProcState.ready, false⟩,
        ⟨2, "evict_to_fit", 30, 0, 0, 0, 0, ProcState.ready, false⟩] ∧
    [⟨1, "evict_to_fit", 100, 0, 0, 0, 0, ProcState.ready, false⟩,
      (⟨2, "evict_to_fit", 30, 0, 0, 0, 0, ProcState.ready, false⟩ : Process)] =
      [⟨1, "evict_to_fit", 100, 0, 0, 0, 0, ProcState.ready, false⟩,
       ⟨2, "evict_to_fit", 30, 0, 0, 0, 0, ProcState.ready, false⟩] := by
  refine ⟨Or.inl (by decide), by decide, ?_, rfl⟩
  have := (c10_exclusive_branch
    ⟨0, "evict_to_fit", 150, 0, 0, 0, -1, ProcState.stopped, true⟩
    [⟨1, "evict_to_fit", 100, 0, 0, 0, 0, ProcState.ready, false⟩,
     ⟨2, "evict_to_fit", 30, 0, 0, 0, 0, ProcState.ready, false⟩] 75 150
    (Or.inl (by decide)) (by decide)).1
  decide

/-! ## Claim C1: single-GPU eviction selection

As stated the claim is violated by the `GroupExclusive` branch: with a
group-exclusive candidate, `freeMB ≥ requiredMB` does *not* yield the empty
plan (the code evicts every idle occupant).  The amended claim restricts to
calls in which neither the candidate nor any occupant is group-exclusive. -/

/-- C1 (counterexample): every occupant has a known footprint and
`freeMB = 200 ≥ 50 = requiredMB`, yet the plan is the full occupant list, not
the empty plan, because the candidate is `GroupExclusive`. -/
theorem c1_counterexample :
    (⟨1, "evict_to_fit", 100, 0, 0, 0, 0, ProcState.ready, false⟩ : Process).measuredVramMB ≠ 0 ∧
    (50 : Nat) ≤ 200 ∧
    selectEvictions ⟨0, "evict_to_fit", 50, 0, 0, 0, -1, ProcState.stopped, true⟩
      [⟨1, "evict_to_fit", 100, 0, 0, 0, 0, ProcState.ready, false⟩] 200 50 =
      some [⟨1, "evict_to_fit", 100, 0, 0, 0, 0, ProcState.ready, false⟩] ∧
    some [(⟨1, "evict_to_fit", 100, 0, 0, 0, 0, ProcState.ready, false⟩ : Process)] ≠
      some ([] : List Process) := by
  refine ⟨by decide, by decide, by decide, by decide⟩

/-- C1 (amended): for calls in which every occupant has a known footprint and
neither the candidate nor any occupant is `GroupExclusive`: if
`freeMB ≥ requiredMB` the plan is empty; otherwise a returned plan is the
shortest prefix of the idle occupants sorted by `lastRequestHandled`
ascending whose accumulated VRAM plus `freeMB` reaches `requiredMB`; and if
even the whole idle set does not reach `requiredMB` the GPU is unfit. -/
theorem c1_selectEvictions_lru (p : Process) (assigned : List Process)
    (freeMB requiredMB : Nat)
    (hknown : ∀ q ∈ assigned, q.measuredVramMB ≠ 0)
    (hpx : p.groupExclusive = false)
    (hax : ∀ q ∈ assigned, q.groupExclusive = false) :
    (requiredMB ≤ freeMB → selectEvictions p assigned freeMB requiredMB = some []) ∧
    (freeMB < requiredMB →
      ∀ ev, selectEvictions p assigned freeMB requiredMB = some ev →
        ev = (sortBy lastRequestBefore (idleProcesses assigned)).take ev.length ∧
        requiredMB ≤ freeMB + sumVram ev ∧
        ∀ m < ev.length,
          freeMB + sumVram ((sortBy lastRequestBefore (idleProcesses assigned)).take m) <
            requiredMB) ∧
    List.Perm (sortBy lastRequestBefore (idleProcesses assigned))
      (idleProcesses assigned) ∧
    (sortBy lastRequestBefore (idleProcesses assigned)).Pairwise
      (fun a b => a.lastRequestHandled ≤ b.lastRequestHandled) ∧
    (freeMB + sumVram (idleProcesses assigned) < requiredMB →
      selectEvictions p assigned freeMB requiredMB = none) := by
  have hax' := hasExclusiveProcess_eq_false hax
  have hkn' := hasUnknownFootprint_eq_false hknown
  refine ⟨?_, ?_, perm_sortBy _ _, ?_, ?_⟩
  · intro hge
    rw [selectEvictions_nonexclusive hpx hax' hkn', if_pos hge]
  · intro hlt ev h
    rw [selectEvictions_nonexclusive hpx hax' hkn', if_neg (by omega)] at h
    exact ⟨greedyEvict_take h, greedyEvict_sum h, greedyEvict_min h hlt⟩
  · refine (pairwise_sortBy lastRequestBefore lastRequestBefore_trans
      lastRequestBefore_asymm (idleProcesses assigned)).imp ?_
    intro a b hab
    simp only [lastRequestBefore, decide_eq_false_iff_not] at hab
    omega
  · intro hsum
    have hlt : freeMB < requiredMB := by
      have : (0 : Nat) ≤ sumVram (idleProcesses assigned) := Nat.zero_le _
      omega
    rw [selectEvictions_nonexclusive hpx hax' hkn', if_neg (by omega)]
    refine (greedyEvict_none_iff freeMB requiredMB _ hlt).mpr ?_
    rw [sumVram_perm (perm_sortBy lastRequestBefore (idleProcesses assigned))]
    exact hsum

/-- C1 witness: the LRU scenario of `TestSchedulerSelectEvictions`: two idle
occupants, the older one first, both needed. -/
theorem c1_witness :
    (∀ q ∈ [(⟨2, "evict_to_fit", 30, 0, 0, -1, 0, ProcState.ready, false⟩ : Process),
        ⟨1, "evict_to_fit", 30, 0, 0, -2, 0, ProcState.ready, false⟩],
      q.measuredVramMB ≠ 0) ∧
    (⟨0, "evict_to_fit", 60, 0, 0, 0, -1, ProcState.stopped, false⟩ : Process).groupExclusive = false ∧
    (∀ q ∈ [(⟨2, "evict_to_fit", 30, 0, 0, -1, 0, ProcState.ready, false⟩ : Process),
        ⟨1, "evict_to_fit", 30, 0, 0, -2, 0, ProcState.ready, false⟩],
      q.groupExclusive = false) ∧
    ((10 : Nat) < 60 →
      ∀ ev, selectEvictions ⟨0, "evict_to_fit", 60, 0, 0, 0, -1, ProcState.stopped, false⟩
          [⟨2, "evict_to_fit", 30, 0, 0, -1, 0, ProcState.ready, false⟩,
           ⟨1, "evict_to_fit", 30, 0, 0, -2, 0, ProcState.ready, false⟩] 10 60 = some ev →
        ev = (sortBy lastRequestBefore (idleProcesses
            [⟨2, "evict_to_fit", 30, 0, 0, -1, 0, ProcState.ready, false⟩,
             ⟨1, "evict_to_fit", 30, 0, 0, -2, 0, ProcState.ready, false⟩])).take ev.length ∧
        60 ≤ 10 + sumVram ev ∧
        ∀ m < ev.length,
          10 + sumVram ((sortBy lastRequestBefore (idleProcesses
              [⟨2, "evict_to_fit", 30, 0, 0, -1, 0, ProcState.ready, false⟩,
               ⟨1, "evict_to_fit", 30, 0, 0, -2, 0, ProcState.ready, false⟩])).take m) < 60) := by
  refine ⟨by decide, by decide, by decide, ?_⟩
  exact (c1_selectEvictions_lru
    ⟨0, "evict_to_fit", 60, 0, 0, 0, -1, ProcState.stopped, false⟩
    [⟨2, "evict_to_fit", 30, 0, 0, -1, 0, ProcState.ready, false⟩,
     ⟨1, "evict_to_fit", 30, 0, 0, -2, 0, ProcState.ready, false⟩] 10 60
    (by decide) (by decide) (by decide)).2.1

/-! ## Claim C2: busy occupants are never evicted -/

theorem selectEvictions_busy_singleton {p q : Process} {free req : Nat}
    (hbusy : q.inFlightRequestsCount ≠ 0) (hlt : free < req) :
    selectEvictions p [q] free req = none := by
  have hall : evictAllIdle [q] = none := evictAllIdle_none ⟨q, by simp, hbusy⟩
  unfold selectEvictions
  by_cases hu : hasUnknownFootprint [q] = true
  · rw [if_pos hu]
  · rw [if_neg hu]
    by_cases hpx : p.groupExclusive = true
    · rw [if_pos hpx, hall]
    · rw [if_neg hpx]
      by_cases hax : hasExclusiveProcess [q] = true
      · rw [if_pos hax, hall]
      · rw [if_neg hax, if_neg (by omega)]
        have hidle : idleProcesses [q] = [] := by
          simp [idleProcesses, hbusy]
        rw [hidle]
        rfl

theorem scheduleProcess_noGPUs {s : SchedulerOptions} {gpusRaw : List GPUInfo}
    {running : List Process} {p : Process}
    (h : scheduleProcess s gpusRaw running p = .errNoGPUs) :
    applyVramCaps s gpusRaw = [] := by
  simp only [scheduleProcess] at h
  by_cases hh : ensureHostRamCapacity s running p = true
  · rw [if_pos hh] at h
    exact absurd h (by simp)
  · rw [if_neg hh] at h
    by_cases hsp : (lowerString p.FitPolicy == "spill") = true
    · rw [if_pos hsp] at h
      cases hcap : applyVramCaps s gpusRaw with
      | nil => rfl
      | cons g0 grest =>
        rw [hcap] at h
        exact absurd h (by simp)
    · rw [if_neg hsp] at h
      by_cases hne : (lowerString p.FitPolicy != "evict_to_fit") = true
      · rw [if_pos hne] at h
        exact absurd h (by simp)
      · rw [if_neg hne] at h
        cases hcap : applyVramCaps s gpusRaw with
        | nil => rfl
        | cons g0 grest =>
          rw [hcap] at h
          simp only at h
          by_cases hreq : (p.measuredVramMB == 0) = true
          · rw [if_pos hreq] at h
            exact absurd h (by simp)
          · rw [if_neg hreq] at h
            cases hbc : buildCandidates p running p.measuredVramMB (g0 :: grest) with
            | nil =>
              rw [hbc] at h
              exact absurd h (by simp)
            | cons c cs =>
              rw [hbc] at h
              exact absurd h (by simp)

/-- C2: (a) every process in any eviction plan executed by `ScheduleProcess`
has in-flight count 0 (so `StopImmediately` is never called on a busy
process); (b) with a single GPU whose only occupant is busy and whose free
VRAM is below the candidate's requirement, `ScheduleProcess` returns
`InsufficientVRAM` even when evicting that occupant alone would fit. -/
theorem c2_busy_never_evicted :
    (∀ (s : SchedulerOptions) (gpusRaw : List GPUInfo) (running : List Process)
        (p : Process) (g : Option Int) (ev : List Process) (env : Option String),
      scheduleProcess s gpusRaw running p = .scheduled g ev env →
      ∀ q ∈ ev, q.inFlightRequestsCount = 0) ∧
    (∀ (s : SchedulerOptions) (gpusRaw : List GPUInfo) (running : List Process)
        (p : Process) (gi : GPUInfo) (q : Process),
      applyVramCaps s gpusRaw = [gi] →
      processesOnGPU running gi.index = [q] →
      q.inFlightRequestsCount ≠ 0 →
      ensureHostRamCapacity s running p = false →
      lowerString p.FitPolicy = "evict_to_fit" →
      gi.freeMB < p.measuredVramMB →
      p.measuredVramMB ≤ gi.freeMB + q.measuredVramMB →
      scheduleProcess s gpusRaw running p = .errInsufficientVRAM) := by
  constructor
  · intro s gpusRaw running p g ev env h q hq
    rcases scheduleProcess_scheduled_cases h with ⟨-, hev⟩ | ⟨-, hev, -⟩ | ⟨gi, -, -, hsel⟩
    · rw [hev] at hq
      simp at hq
    · rw [hev] at hq
      simp at hq
    · exact selectEvictions_idle hsel q hq
  · intro s gpusRaw running p gi q hcap hocc hbusy hh hpol hlt hfit
    have hreq0 : p.measuredVramMB ≠ 0 := by omega
    cases hres : scheduleProcess s gpusRaw running p with
    | scheduled g ev env =>
      exfalso
      rcases scheduleProcess_evict_case hres hpol hreq0 with ⟨c, hc, -⟩
      rw [hcap] at hc
      have hbc : buildCandidates p running p.measuredVramMB [gi] = [] := by
        simp only [buildCandidates]
        rw [hocc, selectEvictions_busy_singleton hbusy hlt]
      rw [hbc] at hc
      simp at hc
    | errInsufficientVRAM => rfl
    | errInsufficientHostRAM => exact absurd hres (scheduleProcess_ne_hostram hh)
    | errNoGPUs =>
      have := scheduleProcess_noGPUs hres
      rw [hcap] at this
      exact absurd this (by simp)

/-- C2 witness: a real eviction with an idle occupant (part a, instantiated),
and the busy-blocks-eviction scenario of spec §8 item 6 (part b). -/
theorem c2_witness :
    (scheduleProcess ⟨0, [], 0⟩ [⟨0, 800, 2000⟩]
        [⟨1, "evict_to_fit", 1200, 100, 0, 0, 0, ProcState.ready, false⟩]
        ⟨2, "cpu_moe", 1500, 100, 0, 0, -1, ProcState.stopped, false⟩ =
      SchedResult.scheduled (some 0)
        [⟨1, "evict_to_fit", 1200, 100, 0, 0, 0, ProcState.ready, false⟩]
        (some "CUDA_VISIBLE_DEVICES=0") ∧
      ∀ q ∈ [(⟨1, "evict_to_fit", 1200, 100, 0, 0, 0, ProcState.ready, false⟩ : Process)],
        q.inFlightRequestsCount = 0) ∧
    (applyVramCaps ⟨0, [], 0⟩ [⟨0, 100, 1000⟩] = [⟨0, 100, 1000⟩] ∧
      processesOnGPU [⟨1, "evict_to_fit", 600, 0, 1, 0, 0, ProcState.ready, false⟩] 0 =
        [⟨1, "evict_to_fit", 600, 0, 1, 0, 0, ProcState.ready, false⟩] ∧
      (⟨1, "evict_to_fit", 600, 0, 1, 0, 0, ProcState.ready, false⟩ : Process).inFlightRequestsCount ≠ 0 ∧
      scheduleProcess ⟨0, [], 0⟩ [⟨0, 100, 1000⟩]
        [⟨1, "evict_to_fit", 600, 0, 1, 0, 0, ProcState.ready, false⟩]
        ⟨2, "evict_to_fit", 600, 0, 0, 0, -1, ProcState.stopped, false⟩ =
        SchedResult.errInsufficientVRAM) := by
  refine ⟨⟨by decide, ?_⟩, by decide, by decide, by decide, ?_⟩
  · exact c2_busy_never_evicted.1 ⟨0, [], 0⟩ [⟨0, 800, 2000⟩]
      [⟨1, "evict_to_fit", 1200, 100, 0, 0, 0, ProcState.ready, false⟩]
      ⟨2, "cpu_moe", 1500, 100, 0, 0, -1, ProcState.stopped, false⟩
      (some 0) [⟨1, "evict_to_fit", 1200, 100, 0, 0, 0, ProcState.ready, false⟩]
      (some "CUDA_VISIBLE_DEVICES=0") (by decide)
  · exact c2_busy_never_evicted.2 ⟨0, [], 0⟩ [⟨0, 100, 1000⟩]
      [⟨1, "evict_to_fit", 600, 0, 1, 0, 0, ProcState.ready, false⟩]
      ⟨2, "evict_to_fit", 600, 0, 0, 0, -1, ProcState.stopped, false⟩
      ⟨0, 100, 1000⟩ ⟨1, "evict_to_fit", 600, 0, 1, 0, 0, ProcState.ready, false⟩
      (by decide) (by decide) (by decide) (by decide) (by decide) (by decide) (by decide)

/-! ## Claim C3: the host-RAM admission gate -/

theorem shouldAccount_of_not_spill {p : Process}
    (h : lowerString p.fitPolicyConfig ≠ "spill") :
    shouldAccountHostRam p = true := by
  unfold shouldAccountHostRam Process.FitPolicy
  by_cases hc : (lowerString p.fitPolicyConfig == "cpu_moe" && p.measuredVramMB != 0) = true
  · rw [if_pos hc]
    decide
  · rw [if_neg hc]
    simpa using h

theorem shouldAccount_spill {p : Process}
    (h : lowerString p.fitPolicyConfig = "spill") :
    shouldAccountHostRam p = false := by
  unfold shouldAccountHostRam Process.FitPolicy
  have hc : (lowerString p.fitPolicyConfig == "cpu_moe") = false := by
    rw [h]
    decide
  rw [hc]
  simp [h]

theorem sumCpuMB_eq_of_known {running : List Process}
    (h : ∀ q ∈ running, shouldAccountHostRam q = true → q.measuredCpuMB ≠ 0) :
    sumCpuMB running =
      some (((running.filter shouldAccountHostRam).map
        (fun q => q.measuredCpuMB)).sum) := by
  induction running with
  | nil => simp [sumCpuMB]
  | cons q rest ih =>
    have hrest : ∀ x ∈ rest, shouldAccountHostRam x = true → x.measuredCpuMB ≠ 0 :=
      fun x hx => h x (List.mem_cons_of_mem q hx)
    by_cases hacc : shouldAccountHostRam q = true
    · have hcpu : q.measuredCpuMB ≠ 0 := h q (List.mem_cons_self q rest) hacc
      unfold sumCpuMB
      rw [if_neg (by simp [hacc]), if_neg (by simpa using hcpu), ih hrest]
      simp [List.filter_cons, hacc]
    · have hacc2 : shouldAccountHostRam q = false := by simpa using hacc
      unfold sumCpuMB
      rw [if_pos (by simp [hacc2]), ih hrest]
      simp [List.filter_cons, hacc2]

/-- C3: with the cap set, a non-`spill` candidate with a known CPU footprint
and every accounted running process known, `ScheduleProcess` returns
`InsufficientHostRAM` exactly when the accounted running CPU sum plus the
candidate's CPU MB exceeds the cap; a `spill` candidate is never rejected for
host RAM. -/
theorem c3_hostram_cap :
    (∀ (s : SchedulerOptions) (gpusRaw : List GPUInfo) (running : List Process)
        (p : Process),
      0 < s.hostRamCapMB →
      lowerString p.fitPolicyConfig ≠ "spill" →
      p.measuredCpuMB ≠ 0 →
      (∀ q ∈ running, shouldAccountHostRam q = true → q.measuredCpuMB ≠ 0) →
      (scheduleProcess s gpusRaw running p = .errInsufficientHostRAM ↔
        s.hostRamCapMB <
          ((running.filter shouldAccountHostRam).map
            (fun q => q.measuredCpuMB)).sum + p.measuredCpuMB)) ∧
    (∀ (s : SchedulerOptions) (gpusRaw : List GPUInfo) (running : List Process)
        (p : Process),
      lowerString p.fitPolicyConfig = "spill" →
      scheduleProcess s gpusRaw running p ≠ .errInsufficientHostRAM) := by
  constructor
  · intro s gpusRaw running p hcap hpol hcpu hknown
    have hacc := shouldAccount_of_not_spill hpol
    have hens : ensureHostRamCapacity s running p =
        decide (s.hostRamCapMB <
          ((running.filter shouldAccountHostRam).map
            (fun q => q.measuredCpuMB)).sum + p.measuredCpuMB) := by
      unfold ensureHostRamCapacity
      rw [if_neg (by simp [hacc]; omega), if_neg (by simpa using hcpu),
        sumCpuMB_eq_of_known hknown]
    constructor
    · intro hres
      by_contra hlt
      have hfalse : ensureHostRamCapacity s running p = false := by
        rw [hens]
        simpa using hlt
      exact absurd hres (scheduleProcess_ne_hostram hfalse)
    · intro hgt
      have htrue : ensureHostRamCapacity s running p = true := by
        rw [hens]
        simpa using hgt
      simp only [scheduleProcess]
      rw [if_pos htrue]
  · intro s gpusRaw running p hpol
    have hacc := shouldAccount_spill hpol
    have hfalse : ensureHostRamCapacity s running p = false := by
      unfold ensureHostRamCapacity
      rw [if_pos (by simp [hacc])]
    exact scheduleProcess_ne_hostram hfalse

/-- C3 witness: the host-RAM rejection scenario of
`TestSchedulerScheduleProcess_FitPolicyHostRamOnly`, plus the admitted spill
candidate. -/
theorem c3_witness :
    ((0 : Nat) < 1000 ∧
      lowerString "default" ≠ "spill" ∧
      (200 : Nat) ≠ 0 ∧
      (scheduleProcess ⟨0, [], 1000⟩ [⟨0, 500, 1000⟩]
          [⟨1, "default", 0, 900, 0, 0, -1, ProcState.ready, false⟩]
          ⟨2, "default", 0, 200, 0, 0, -1, ProcState.stopped, false⟩ =
          SchedResult.errInsufficientHostRAM ↔
        1000 < (([⟨1, "default", 0, 900, 0, 0, -1, ProcState.ready, false⟩].filter
            shouldAccountHostRam).map (fun q => q.measuredCpuMB)).sum + 200)) ∧
    (lowerString "spill" = "spill" ∧
      scheduleProcess ⟨0, [], 1000⟩ [⟨0, 500, 1000⟩]
        [⟨1, "default", 0, 900, 0, 0, -1, ProcState.ready, false⟩]
        ⟨3, "spill", 0, 2000, 0, 0, -1, ProcState.stopped, false⟩ ≠
        SchedResult.errInsufficientHostRAM) := by
  refine ⟨⟨by decide, by decide, by decide, ?_⟩, by decide, ?_⟩
  · exact c3_hostram_cap.1 ⟨0, [], 1000⟩ [⟨0, 500, 1000⟩]
      [⟨1, "default", 0, 900, 0, 0, -1, ProcState.ready, false⟩]
      ⟨2, "default", 0, 200, 0, 0, -1, ProcState.stopped, false⟩
      (by decide) (by decide) (by decide) (by decide)
  · exact c3_hostram_cap.2 ⟨0, [], 1000⟩ [⟨0, 500, 1000⟩]
      [⟨1, "default", 0, 900, 0, 0, -1, ProcState.ready, false⟩]
      ⟨3, "spill", 0, 2000, 0, 0, -1, ProcState.stopped, false⟩ (by decide)

/-! ## Claim C4: the `cpu_moe` fit policy -/

theorem fitPolicy_cpu_moe_vram {p : Process}
    (hpol : lowerString p.fitPolicyConfig = "cpu_moe")
    (hv : p.measuredVramMB ≠ 0) : p.FitPolicy = "evict_to_fit" := by
  unfold Process.FitPolicy
  rw [if_pos (by rw [hpol]; simp [hv])]

theorem fitPolicy_novram {p : Process}
    (hv : p.measuredVramMB = 0) : p.FitPolicy = p.fitPolicyConfig := by
  unfold Process.FitPolicy
  rw [if_neg (by simp [hv])]

/-- C4: a `cpu_moe` candidate with a non-zero measured VRAM footprint is
scheduled exactly like the same candidate configured `evict_to_fit`
(GPU placement with eviction); a `cpu_moe` candidate with measured VRAM 0 is
admitted without any GPU assignment or runtime environment. -/
theorem c4_cpu_moe_policy :
    (∀ (s : SchedulerOptions) (gpusRaw : List GPUInfo) (running : List Process)
        (p : Process),
      lowerString p.fitPolicyConfig = "cpu_moe" → p.measuredVramMB ≠ 0 →
      scheduleProcess s gpusRaw running p =
        scheduleProcess s gpusRaw running
          { p with fitPolicyConfig := "evict_to_fit" }) ∧
    (∀ (s : SchedulerOptions) (gpusRaw : List GPUInfo) (running : List Process)
        (p : Process),
      lowerString p.fitPolicyConfig = "cpu_moe" → p.measuredVramMB = 0 →
      ensureHostRamCapacity s running p = false →
      scheduleProcess s gpusRaw running p = .scheduled none [] none) := by
  constructor
  · intro s gpusRaw running p hpol hv
    apply scheduleProcess_congr
    · rw [fitPolicy_cpu_moe_vram hpol hv]
      unfold Process.FitPolicy
      rw [if_neg (by simp [show (lowerString "evict_to_fit" == "cpu_moe") = false
        from by decide])]
    · rfl
    · rfl
    · rfl
  · intro s gpusRaw running p hpol hv hh
    have hfp := fitPolicy_novram hv
    simp only [scheduleProcess]
    rw [if_neg (by simp [hh]),
      if_neg (show ¬((lowerString p.FitPolicy == "spill") = true) by
        rw [hfp, hpol]; decide),
      if_pos (show (lowerString p.FitPolicy != "evict_to_fit") = true by
        rw [hfp, hpol]; decide)]

/-- C4 witness: the two scenarios of
`TestSchedulerScheduleProcess_CpuMoeWithVramHint`. -/
theorem c4_witness :
    (lowerString "cpu_moe" = "cpu_moe" ∧ (500 : Nat) ≠ 0 ∧
      scheduleProcess ⟨0, [], 0⟩ [⟨0, 1000, 2000⟩] []
          ⟨0, "cpu_moe", 500, 100, 0, 0, -1, ProcState.stopped, false⟩ =
        scheduleProcess ⟨0, [], 0⟩ [⟨0, 1000, 2000⟩] []
          ⟨0, "evict_to_fit", 500, 100, 0, 0, -1, ProcState.stopped, false⟩) ∧
    (ensureHostRamCapacity ⟨0, [], 0⟩ []
        ⟨0, "cpu_moe", 0, 100, 0, 0, -1, ProcState.stopped, false⟩ = false ∧
      scheduleProcess ⟨0, [], 0⟩ [⟨0, 1000, 2000⟩] []
        ⟨0, "cpu_moe", 0, 100, 0, 0, -1, ProcState.stopped, false⟩ =
        SchedResult.scheduled none [] none) := by
  refine ⟨⟨by decide, by decide, ?_⟩, by decide, ?_⟩
  · exact c4_cpu_moe_policy.1 ⟨0, [], 0⟩ [⟨0, 1000, 2000⟩] []
      ⟨0, "cpu_moe", 500, 100, 0, 0, -1, ProcState.stopped, false⟩
      (by decide) (by decide)
  · exact c4_cpu_moe_policy.2 ⟨0, [], 0⟩ [⟨0, 1000, 2000⟩] []
      ⟨0, "cpu_moe", 0, 100, 0, 0, -1, ProcState.stopped, false⟩
      (by decide) (by decide) (by decide)

/-! ## Claim C7: the store-time merge of `ObserveLog` -/

/-- C7: the store-time merge (`mergeMB`, zero fields inherit the prior value)
is associative, the all-zero footprint is a two-sided identity, and every
`ObserveLog` call that parses a measurement stores exactly the merge of the
parsed footprint with the currently stored one (or with `{0,0}` when none is
stored) and stamps recordedAt with the observation time. -/
theorem c7_merge_monoid_observe :
    (∀ a b c : Nat × Nat, mergeMB (mergeMB a b) c = mergeMB a (mergeMB b c)) ∧
    (∀ a : Nat × Nat, mergeMB a (0, 0) = a ∧ mergeMB (0, 0) a = a) ∧
    (∀ (t : MemoryTracker) (sig line : String) (now : Int),
      (observeLog t sig line now).matched = (parseMemoryFromLog line).isSome ∧
      ∀ fp, parseMemoryFromLog line = some fp →
        (observeLog t sig line now).tracker sig = some
          ⟨(mergeMB (fp.vramMB, fp.cpuMB)
              (match t sig with
                | some e => (e.vramMB, e.cpuMB)
                | none => (0, 0))).1,
            (mergeMB (fp.vramMB, fp.cpuMB)
              (match t sig with
                | some e => (e.vramMB, e.cpuMB)
                | none => (0, 0))).2,
            now⟩) := by
  refine ⟨?_, ?_, ?_⟩
  · intro a b c
    rcases a with ⟨a1, a2⟩
    rcases b with ⟨b1, b2⟩
    rcases c with ⟨c1, c2⟩
    simp only [mergeMB, Prod.mk.injEq]
    constructor
    · by_cases h1 : a1 = 0 <;> by_cases h2 : b1 = 0 <;> simp [h1, h2]
    · by_cases h1 : a2 = 0 <;> by_cases h2 : b2 = 0 <;> simp [h1, h2]
  · intro a
    rcases a with ⟨a1, a2⟩
    constructor
    · simp only [mergeMB, Prod.mk.injEq]
      constructor
      · by_cases h1 : a1 = 0 <;> simp [h1]
      · by_cases h2 : a2 = 0 <;> simp [h2]
    · simp [mergeMB]
  · intro t sig line now
    unfold observeLog
    cases hp : parseMemoryFromLog line with
    | none =>
      refine ⟨rfl, ?_⟩
      intro fp hfp
      exact absurd hfp (by simp)
    | some fp0 =>
      refine ⟨rfl, ?_⟩
      intro fp hfp
      have hfp0 : fp0 = fp := by simpa using hfp
      subst hfp0
      simp only [trackerSet, beq_self_eq_true, if_true]
      cases ht : t sig with
      | none =>
        simp only [MemoryFootprint.mk.injEq, Option.some.injEq, mergeMB]
        refine ⟨?_, ?_, trivial⟩
        · by_cases h1 : fp0.vramMB = 0 <;> simp [h1]
        · by_cases h2 : fp0.cpuMB = 0 <;> simp [h2]
      | some e =>
        simp [mergeMB]

/-- C7 witness: observing a VRAM-only labeled line over an empty tracker
stores `{1616, 0}` with the observation time. -/
theorem c7_witness :
    parseMemoryFromLog "VRAM used: 1616 MiB" = some ⟨1616, 0, 0⟩ ∧
    (observeLog emptyTracker "model|cmd" "VRAM used: 1616 MiB" 5).tracker "model|cmd" =
      some ⟨1616, 0, 5⟩ := by
  refine ⟨by decide, ?_⟩
  have := (c7_merge_monoid_observe.2.2 emptyTracker "model|cmd"
    "VRAM used: 1616 MiB" 5).2 ⟨1616, 0, 0⟩ (by decide)
  simpa [mergeMB, emptyTracker] using this

/-! ## Claim C8: the llama-style fallback on the `CUDA0` model-buffer line

The claim (and the repo's own test `TestParseMemoryFromLog`, case
"llama style model buffer line") expects the line to match with
`{23347, 0}`.  The code disagrees: `llamaVRAMRegex` is
`(?i)\b(cuda|vram|gpu)\b[^\n]*?([0-9]+(?:\.[0-9]+)?)\s*(mi?b|gi?b)`, and in
`CUDA0` the required word boundary after the token falls between `A` and `0`,
two word characters, so the alternative cannot match and no other token
occurs in the line; `parseMemoryFromLog` therefore reports no match.  The
fourth conjunct shows the same line without the digit after `CUDA` parses to
`{23347, 0}`, isolating the trailing `\b` as the failure. -/
theorem c8_cuda0_line_unmatched :
    parseMemoryFromLog "load_tensors:      CUDA0 model buffer size = 23347.06 MiB" =
      none ∧
    (observeLog emptyTracker "model|cmd"
      "load_tensors:      CUDA0 model buffer size = 23347.06 MiB" 3).matched = false ∧
    (observeLog emptyTracker "model|cmd"
      "load_tensors:      CUDA0 model buffer size = 23347.06 MiB" 3).tracker
      "model|cmd" = none ∧
    parseMemoryFromLog "load_tensors:      CUDA model buffer size = 23347.06 MiB" =
      some ⟨23347, 0, 0⟩ := by
  refine ⟨by decide, by decide, by decide, by decide⟩

/-! ## Claim C6: the lexicographic GPU choice -/

/-- C6: whenever the evict-to-fit path schedules a candidate with a known
VRAM footprint (distinct GPU indices assumed), the assigned GPU comes from a
candidate entry of the admitting-GPU list that is strictly minimal under the
code's comparator (fewest evictions, then fewest assigned processes, then
most free MB, then lowest index), and the runtime environment is
`CUDA_VISIBLE_DEVICES=<that index>`. -/
theorem c6_lexicographic_choice
    (s : SchedulerOptions) (gpusRaw : List GPUInfo) (running : List Process)
    (p : Process) (g : Option Int) (ev : List Process) (env : Option String)
    (hres : scheduleProcess s gpusRaw running p = .scheduled g ev env)
    (hpol : lowerString p.FitPolicy = "evict_to_fit")
    (hvram : p.measuredVramMB ≠ 0)
    (hidx : ((applyVramCaps s gpusRaw).map GPUInfo.index).Nodup) :
    ∃ c ∈ buildCandidates p running p.measuredVramMB (applyVramCaps s gpusRaw),
      g = some c.gpuIndex ∧ ev = c.evict ∧
      env = some ("CUDA_VISIBLE_DEVICES=" ++ toString c.gpuIndex) ∧
      ∀ x ∈ buildCandidates p running p.measuredVramMB (applyVramCaps s gpusRaw),
        x ≠ c → candLess c x = true := by
  rcases scheduleProcess_evict_case hres hpol hvram with ⟨c, hc, hg, hev, henv, hmin⟩
  refine ⟨c, hc, hg, hev, henv, ?_⟩
  intro x hx hne
  have hnodup : ((buildCandidates p running p.measuredVramMB
      (applyVramCaps s gpusRaw)).map SchedCandidate.gpuIndex).Nodup :=
    (buildCandidates_index_sublist p running p.measuredVramMB
      (applyVramCaps s gpusRaw)).nodup hidx
  have hidxne : x.gpuIndex ≠ c.gpuIndex := by
    intro heq
    exact hne (List.inj_on_of_nodup_map hnodup hx hc heq)
  rcases candLess_total_of_index_ne c x (fun h => hidxne h.symm) with h | h
  · exact h
  · have hfalse := hmin x hx
    rw [hfalse] at h
    exact absurd h (by decide)

/-- C6 witness: the two-GPU scenario of
`TestSchedulerScheduleProcess_PrefersGPUWithoutEviction`: GPU 1 admits an
empty plan and wins over GPU 0, which would need one eviction. -/
theorem c6_witness :
    (scheduleProcess ⟨0, [], 0⟩ [⟨0, 9000, 24576⟩, ⟨1, 11000, 24576⟩]
        [⟨1, "evict_to_fit", 4000, 0, 0, 0, 1, ProcState.ready, false⟩]
        ⟨2, "evict_to_fit", 10000, 0, 0, 0, -1, ProcState.stopped, false⟩ =
      SchedResult.scheduled (some 1) [] (some "CUDA_VISIBLE_DEVICES=1") ∧
      lowerString (⟨2, "evict_to_fit", 10000, 0, 0, 0, -1,
        ProcState.stopped, false⟩ : Process).FitPolicy = "evict_to_fit") ∧
    ∃ c ∈ buildCandidates
        ⟨2, "evict_to_fit", 10000, 0, 0, 0, -1, ProcState.stopped, false⟩
        [⟨1, "evict_to_fit", 4000, 0, 0, 0, 1, ProcState.ready, false⟩] 10000
        (applyVramCaps ⟨0, [], 0⟩ [⟨0, 9000, 24576⟩, ⟨1, 11000, 24576⟩]),
      (some (1 : Int) : Option Int) = some c.gpuIndex ∧
      ([] : List Process) = c.evict ∧
      (some "CUDA_VISIBLE_DEVICES=1" : Option String) =
        some ("CUDA_VISIBLE_DEVICES=" ++ toString c.gpuIndex) ∧
      ∀ x ∈ buildCandidates
          ⟨2, "evict_to_fit", 10000, 0, 0, 0, -1, ProcState.stopped, false⟩
          [⟨1, "evict_to_fit", 4000, 0, 0, 0, 1, ProcState.ready, false⟩] 10000
          (applyVramCaps ⟨0, [], 0⟩ [⟨0, 9000, 24576⟩, ⟨1, 11000, 24576⟩]),
        x ≠ c → candLess c x = true := by
  refine ⟨⟨by decide, by decide⟩, ?_⟩
  exact c6_lexicographic_choice ⟨0, [], 0⟩ [⟨0, 9000, 24576⟩, ⟨1, 11000, 24576⟩]
    [⟨1, "evict_to_fit", 4000, 0, 0, 0, 1, ProcState.ready, false⟩]
    ⟨2, "evict_to_fit", 10000, 0, 0, 0, -1, ProcState.stopped, false⟩
    (some 1) [] (some "CUDA_VISIBLE_DEVICES=1")
    (by decide) (by decide) (by decide) (by decide)

/-! ## Claim C5: the per-GPU VRAM residency invariant -/

/-- On the GPU the evictions were selected for, stopping the evictees leaves
exactly the rest of the occupant multiset resident. -/
theorem resident_after_evictions {running ev rest : List Process} {gidx : Int}
    (hperm : List.Perm (ev ++ rest) (processesOnGPU running gidx))
    (hpid : (running.map Process.pid).Nodup) :
    residentVramMB (stopEvicted ev running) gidx = sumVram rest := by
  rw [residentVram_stopEvicted]
  have hsubA : (processesOnGPU running gidx).Sublist running :=
    List.filter_sublist _
  have hnodupA : ((processesOnGPU running gidx).map Process.pid).Nodup :=
    (hsubA.map Process.pid).nodup hpid
  have hnodupER : ((ev ++ rest).map Process.pid).Nodup :=
    (hperm.map Process.pid).nodup_iff.mpr hnodupA
  have hPerm2 : List.Perm
      ((processesOnGPU running gidx).filter
        (fun q => !(ev.any (fun e => e.pid == q.pid))))
      ((ev ++ rest).filter (fun q => !(ev.any (fun e => e.pid == q.pid)))) :=
    (hperm.filter _).symm
  have hevfil : ev.filter (fun q => !(ev.any (fun e => e.pid == q.pid))) = [] := by
    rw [List.filter_eq_nil_iff]
    intro q hq
    simp only [Bool.not_eq_true, Bool.not_eq_true', Bool.not_eq_false]
    simp only [List.any_eq_true]
    exact ⟨q, hq, by simp⟩
  have hrestfil : rest.filter (fun q => !(ev.any (fun e => e.pid == q.pid))) = rest := by
    rw [List.filter_eq_self]
    intro r hr
    have hnd := hnodupER
    rw [List.map_append] at hnd
    have hdisj := (List.nodup_append.mp hnd).2.2
    simp only [Bool.not_eq_true', List.any_eq_false]
    intro e he
    simp only [beq_iff_eq]
    intro hpe
    exact hdisj (List.mem_map_of_mem Process.pid he)
      (hpe ▸ List.mem_map_of_mem Process.pid hr)
  calc sumVram ((processesOnGPU running gidx).filter
        (fun q => !(ev.any (fun e => e.pid == q.pid))))
      = sumVram ((ev ++ rest).filter
          (fun q => !(ev.any (fun e => e.pid == q.pid)))) := sumVram_perm hPerm2
    _ = sumVram rest := by
        rw [List.filter_append, hevfil, hrestfil]
        simp

/-- C5: immediately after a scheduling decision returns OK — evictees driven
to `Stopped`, the candidate `Starting` on its assigned GPU — the measured
VRAM resident on each inventory GPU (its Ready/Starting occupants) stays
within the capped total, provided the inventory's reported free MB was the
capped total minus the VRAM of the current occupants, pids and GPU indices
are distinct, GPU indices are non-negative and the candidate starts
unassigned. -/
theorem c5_resident_vram_invariant
    (s : SchedulerOptions) (gpusRaw : List GPUInfo) (running : List Process)
    (p : Process) (g : Option Int) (ev : List Process) (env : Option String)
    (hres : scheduleProcess s gpusRaw running p = .scheduled g ev env)
    (hfree : ∀ gi ∈ gpusRaw,
      gi.freeMB + residentVramMB running gi.index = (capGPU s gi).totalMB)
    (hpid : (running.map Process.pid).Nodup)
    (hidx : (gpusRaw.map GPUInfo.index).Nodup)
    (hpg : p.assignedGPU = -1)
    (hnn : ∀ gi ∈ gpusRaw, 0 ≤ gi.index) :
    ∀ gi ∈ gpusRaw,
      residentVramMB (stopEvicted ev running ++ [candidateAfter p g]) gi.index ≤
        (capGPU s gi).totalMB := by
  intro gi hgi
  rw [residentVram_append]
  rcases scheduleProcess_scheduled_cases hres with ⟨hg, hev⟩ | ⟨hv0, hev, i, hg⟩ |
    ⟨giC, hgiC, hg, hsel⟩
  · subst hg
    subst hev
    rw [stopEvicted_nil]
    have hge : (0 : Int) ≤ gi.index := hnn gi hgi
    have hne : ((-1 : Int) == gi.index) = false := by
      simp only [beq_eq_false_iff_ne, ne_eq]
      omega
    have hcand : residentVramMB [candidateAfter p none] gi.index = 0 := by
      simp [residentVramMB, processesOnGPU, candidateAfter, hpg, hne, sumVram]
    rw [hcand]
    have := hfree gi hgi
    omega
  · subst hg
    subst hev
    rw [stopEvicted_nil]
    have hcand : residentVramMB [candidateAfter p (some i)] gi.index ≤
        p.measuredVramMB := by
      have hle : residentVramMB [candidateAfter p (some i)] gi.index ≤
          sumVram [candidateAfter p (some i)] := by
        rw [residentVramMB, processesOnGPU]
        exact sumVram_filter_le _ _
      simpa [sumVram, candidateAfter] using hle
    have := hfree gi hgi
    omega
  · subst hg
    rw [applyVramCaps_eq_map] at hgiC
    rcases List.mem_map.mp hgiC with ⟨gr, hgr, hcapeq⟩
    subst hcapeq
    have hfr := hfree gr hgr
    have hfree_eq : (capGPU s gr).freeMB = gr.freeMB := capGPU_free_eq (by omega)
    have hidx_eq : (capGPU s gr).index = gr.index := capGPU_index s gr
    rw [hidx_eq, hfree_eq] at hsel
    have hsum := selectEvictions_sum hsel
    rcases selectEvictions_perm hsel with ⟨rest, hperm⟩
    have hstop := resident_after_evictions hperm hpid
    have hsumA : residentVramMB running gr.index = sumVram ev + sumVram rest := by
      rw [residentVramMB, ← sumVram_perm hperm, sumVram_append]
    by_cases hsame : gi.index = gr.index
    · have hgieq : gi = gr := List.inj_on_of_nodup_map hidx hgi hgr hsame
      subst hgieq
      rw [hidx_eq]
      have hcand : residentVramMB [candidateAfter p (some gi.index)] gi.index =
          p.measuredVramMB := by
        simp [residentVramMB, processesOnGPU, candidateAfter,
          processUsesSchedulerCapacity, sumVram]
      rw [hstop, hcand]
      omega
    · have hle : residentVramMB (stopEvicted ev running) gi.index ≤
          residentVramMB running gi.index := by
        rw [residentVram_stopEvicted, residentVramMB]
        exact sumVram_filter_le _ _
      have hneq : ((capGPU s gr).index == gi.index) = false := by
        rw [hidx_eq]
        simp only [beq_eq_false_iff_ne, ne_eq]
        exact fun h => hsame h.symm
      have hcand : residentVramMB [candidateAfter p (some ((capGPU s gr).index))]
          gi.index = 0 := by
        simp [residentVramMB, processesOnGPU, candidateAfter, hneq, sumVram]
      have := hfree gi hgi
      rw [hcand]
      omega

/-- C5 witness: the swap-on-single-GPU scenario of spec §8 item 1: model B
(23347 MB) evicts idle resident A (20000 MB) on a 24576 MB GPU and the
resulting residency stays within the capped total. -/
theorem c5_witness :
    (scheduleProcess ⟨24576, [], 0⟩ [⟨0, 4576, 24576⟩]
        [⟨1, "evict_to_fit", 20000, 0, 0, 0, 0, ProcState.ready, false⟩]
        ⟨2, "evict_to_fit", 23347, 0, 0, 0, -1, ProcState.stopped, false⟩ =
      SchedResult.scheduled (some 0)
        [⟨1, "evict_to_fit", 20000, 0, 0, 0, 0, ProcState.ready, false⟩]
        (some "CUDA_VISIBLE_DEVICES=0") ∧
      (∀ gi ∈ [(⟨0, 4576, 24576⟩ : GPUInfo)],
        gi.freeMB + residentVramMB
          [⟨1, "evict_to_fit", 20000, 0, 0, 0, 0, ProcState.ready, false⟩] gi.index =
          (capGPU ⟨24576, [], 0⟩ gi).totalMB)) ∧
    ∀ gi ∈ [(⟨0, 4576, 24576⟩ : GPUInfo)],
      residentVramMB
        (stopEvicted [⟨1, "evict_to_fit", 20000, 0, 0, 0, 0, ProcState.ready, false⟩]
          [⟨1, "evict_to_fit", 20000, 0, 0, 0, 0, ProcState.ready, false⟩] ++
          [candidateAfter ⟨2, "evict_to_fit", 23347, 0, 0, 0, -1,
            ProcState.stopped, false⟩ (some 0)]) gi.index ≤
        (capGPU ⟨24576, [], 0⟩ gi).totalMB := by
  refine ⟨⟨by decide, by decide⟩, ?_⟩
  exact c5_resident_vram_invariant ⟨24576, [], 0⟩ [⟨0, 4576, 24576⟩]
    [⟨1, "evict_to_fit", 20000, 0, 0, 0, 0, ProcState.ready, false⟩]
    ⟨2, "evict_to_fit", 23347, 0, 0, 0, -1, ProcState.stopped, false⟩
    (some 0) [⟨1, "evict_to_fit", 20000, 0, 0, 0, 0, ProcState.ready, false⟩]
    (some "CUDA_VISIBLE_DEVICES=0")
    (by decide) (by decide) (by decide) (by decide) (by decide) (by decide)

end LlamaSwap
